import Mathlib

/-!
Verification of `google_cloud_components/aiplatform/utils.py`, a utility that
converts AI Platform SDK constructors and methods into pipeline component
manifests.  The Python module is shallowly embedded below: the SDK class
hierarchy, annotation values, parameter signatures and the component
generator's keyword-argument loop become executable Lean definitions, and the
spec's claims are settled as theorems over those definitions.
-/

namespace AiPlatformUtils

/-! ## The modelled SDK class hierarchy

The module consults the `aiplatform` package only through `issubclass`
checks against `aiplatform.base.AiPlatformResourceNoun` and through
`getattr(aiplatform, name)` lookups of exported resource classes.  The
classes that the module itself names (the four keys of
`RESOURCE_TO_METADATA_TYPE`) and the concrete dataset subclasses of the
private `_Dataset` class form the modelled hierarchy. -/

/-- The resource-noun classes of the wrapped SDK that the module can observe. -/
inductive MBClass where
  | aiPlatformResourceNoun
  | uDataset      -- the private class `_Dataset` (named `uDataset` here)
  | imageDataset
  | tabularDataset
  | textDataset
  | model
  | endpoint
  | batchPredictionJob
deriving DecidableEq, Repr, Fintype

/-- The Python name (`__name__`) of each modelled resource class. -/
def MBClass.pyName : MBClass → String
  | .aiPlatformResourceNoun => "AiPlatformResourceNoun"
  | .uDataset => "_Dataset"
  | .imageDataset => "ImageDataset"
  | .tabularDataset => "TabularDataset"
  | .textDataset => "TextDataset"
  | .model => "Model"
  | .endpoint => "Endpoint"
  | .batchPredictionJob => "BatchPredictionJob"

/-- The ancestors (reflexive) of each modelled class: `_Dataset`, `Model`,
`Endpoint` and `BatchPredictionJob` derive directly from
`AiPlatformResourceNoun`; the concrete dataset classes derive from
`_Dataset`. -/
def MBClass.ancestors : MBClass → List MBClass
  | .aiPlatformResourceNoun => [.aiPlatformResourceNoun]
  | .uDataset => [.uDataset, .aiPlatformResourceNoun]
  | .imageDataset => [.imageDataset, .uDataset, .aiPlatformResourceNoun]
  | .tabularDataset => [.tabularDataset, .uDataset, .aiPlatformResourceNoun]
  | .textDataset => [.textDataset, .uDataset, .aiPlatformResourceNoun]
  | .model => [.model, .aiPlatformResourceNoun]
  | .endpoint => [.endpoint, .aiPlatformResourceNoun]
  | .batchPredictionJob => [.batchPredictionJob, .aiPlatformResourceNoun]

/-- `issubclass` restricted to the modelled SDK classes. -/
def mbIsSubclassOf (c d : MBClass) : Bool :=
  d ∈ c.ancestors

/-- A Python class object as far as the module can observe one: an SDK
resource class or one of the builtin classes it compares against. -/
inductive PyClass where
  | mb (c : MBClass)
  | pyStr
  | pyInt
  | pyBool
  | pyFloat
deriving DecidableEq, Repr

/-- `issubclass` on modelled class objects.  Distinct builtin classes are
unrelated; only the SDK classes have a nontrivial hierarchy. -/
def isSubclassOf (a b : PyClass) : Bool :=
  match a, b with
  | .mb c, .mb d => mbIsSubclassOf c d
  | x, y => x = y

/-- The generic-alias origins that `is_serializable_to_json` compares the
`__origin__` attribute against: `dict`, `list`, `collections.abc.Sequence`. -/
inductive COrigin where
  | dictO
  | listO
  | seqO
deriving DecidableEq, Repr

/-- A Python annotation as far as the module can observe one.

`union` models a `typing.Union`/`Optional` alias; the module only ever reads
`__args__[0]`, so only the first argument is carried.  `container` models a
generic alias whose `__origin__` is `dict`, `list` or
`collections.abc.Sequence`; its type arguments are never consulted.
`empty` is `inspect.Parameter.empty` / `inspect.Signature.empty` (itself a
class in Python), `noneAnn` is the `None` object, `strAnn` a plain string
forward reference and `fwdRef` a `typing.ForwardRef`. -/
inductive Annot where
  | cls (c : PyClass)
  | strAnn (s : String)
  | fwdRef (s : String)
  | union (first : Annot)
  | container (origin : COrigin)
  | noneAnn
  | empty
  | other (tag : String)
deriving DecidableEq, Repr

/-- Python truthiness of the values `resolve_annotation` can return: `None`
and the empty string are falsy; classes, aliases and nonempty strings are
truthy. -/
def pyTruthy : Annot → Bool
  | .noneAnn => false
  | .strAnn s => s ≠ ""
  | _ => true

/-- `getattr(aiplatform, name, None)`: the exported attributes of the
`aiplatform` package that the modelled forward references can name.  The
private `_Dataset` class is not exported, which is why the module needs its
dedicated `'_Dataset'` string case. -/
def aiplatformAttr : String → Option PyClass
  | "ImageDataset" => some (.mb .imageDataset)
  | "TabularDataset" => some (.mb .tabularDataset)
  | "TextDataset" => some (.mb .textDataset)
  | "Model" => some (.mb .model)
  | "Endpoint" => some (.mb .endpoint)
  | "BatchPredictionJob" => some (.mb .batchPredictionJob)
  | _ => none

/-- `get_forward_reference` (utils.py lines 43-67): resolves a plain string or
a `typing.ForwardRef` to an exported `aiplatform` class, and anything else to
`None`. -/
def get_forward_reference : Annot → Option PyClass
  | .strAnn s => aiplatformAttr s
  | .fwdRef s => aiplatformAttr s
  | _ => none

/-- `inspect.isclass(annotation) and issubclass(annotation,
aiplatform.base.AiPlatformResourceNoun)` applied to an annotation. -/
def annotIsResourceClass : Annot → Bool
  | .cls c => isSubclassOf c (.mb .aiPlatformResourceNoun)
  | _ => false

/-- `resolve_annotation` (utils.py lines 70-106): direct resource-class
match, then forward-reference resolution, then unwrapping of a
`Union`/`Optional` alias by its first argument, then the `inspect._empty`
check, and finally the annotation unchanged. -/
def resolve_annot (ann : Annot) : Annot :=
  if annotIsResourceClass ann then ann
  else
    match get_forward_reference ann with
    | some c => .cls c
    | none =>
      match ann with
      | .union first =>
        (match get_forward_reference first with
         | some c => .cls c
         | none => first)
      | .empty => .noneAnn
      | a => a

/-- `is_serializable_to_json` (utils.py lines 109-118): true exactly when the
annotation's `__origin__` is `dict`, `list` or `collections.abc.Sequence`. -/
def is_serializable_to_json : Annot → Bool
  | .container _ => true
  | _ => false

/-- `is_mb_sdk_resource_noun_type` (utils.py lines 121-131). -/
def is_mb_sdk_resource_noun_type : Annot → Bool :=
  annotIsResourceClass

/-- `RESOURCE_TO_METADATA_TYPE` (utils.py lines 35-40), in the dict's
insertion order. -/
def RESOURCE_TO_METADATA_TYPE : List (PyClass × String) :=
  [(.mb .uDataset, "Dataset"),
   (.mb .model, "Model"),
   (.mb .endpoint, "Artifact"),
   (.mb .batchPredictionJob, "Artifact")]

/-- Python string operations, modelled at the character level (Python
strings are character sequences, not UTF-8 byte arrays): `s.endswith(t)`. -/
def strEndsWith (s t : String) : Bool := t.data.isSuffixOf s.data

/-- Python `s.startswith(t)`. -/
def strStartsWith (s t : String) : Bool := t.data.isPrefixOf s.data

/-- Python `s[:-n]` for `0 < n ≤ len(s)`. -/
def strDropRight (s : String) (n : Nat) : String :=
  String.mk (s.data.take (s.data.length - n))

/-- Python `s[n:]` for `n ≤ len(s)`. -/
def strDrop (s : String) (n : Nat) : String := String.mk (s.data.drop n)

/-- Python `s.lower()`. -/
def strToLower (s : String) : String := String.mk (s.data.map Char.toLower)

/-- `key.__name__.split('.')[-1].lower()` followed by the leading-underscore
strip (utils.py lines 177-181); a `__name__` contains no dot, so the split
is the identity. -/
def metadataParamName (s : String) : String :=
  let lowered := strToLower s
  if strStartsWith lowered "_" then strDrop lowered 1 else lowered

/-- The Python name of a modelled class object (only SDK classes reach the
name computation in the source). -/
def PyClass.pyName : PyClass → String
  | .mb c => c.pyName
  | .pyStr => "str"
  | .pyInt => "int"
  | .pyBool => "bool"
  | .pyFloat => "float"

/-- `issubclass(mb_sdk_type, key)` for an annotation against a table key. -/
def annotIsSubclassOf (a : Annot) (k : PyClass) : Bool :=
  match a with
  | .cls c => isSubclassOf c k
  | _ => false

/-- `map_resource_to_metadata_type` (utils.py lines 163-192): first matching
table key for a resource-noun class, then the JSON-serializable container
case, then the `'_Dataset'` string case, and otherwise `None`. -/
def map_resource_to_metadata_type (mb_sdk_type : Annot) : Option (String × String) :=
  match (if is_mb_sdk_resource_noun_type mb_sdk_type then
           RESOURCE_TO_METADATA_TYPE.find? (fun kv => annotIsSubclassOf mb_sdk_type kv.1)
         else none) with
  | some kv => some (metadataParamName kv.1.pyName, kv.2)
  | none =>
    if is_serializable_to_json mb_sdk_type then some ("exported_dataset", "JsonArray")
    else if mb_sdk_type = .strAnn "_Dataset" then some ("dataset", "Dataset")
    else none

/-- `is_resource_name_parameter_name` (utils.py lines 202-206). -/
def is_resource_name_parameter_name (param_name : String) : Bool :=
  param_name ≠ "display_name" &&
    !(strEndsWith param_name "encryption_spec_key_name") &&
    strEndsWith param_name "_name"

/-- `PARAMS_TO_REMOVE` (utils.py line 210). -/
def PARAMS_TO_REMOVE : List String := ["self", "credentials", "sync"]

/-! ## The `json` standard-library model

`get_serializer`/`get_deserializer` hand out `json.dumps` and `json.loads`.
Modelled from the `json` library: values are null, booleans, integers,
strings, arrays and objects (floats are out of scope); `dumps` uses the
default separators `', '` and `': '` and escapes the quote, backslash,
newline, tab and carriage-return characters; `loads` is a strict
recursive-descent reader of that output format. -/

/-- A JSON value (the Python objects `json.dumps` accepts, floats omitted). -/
inductive Json where
  | null
  | jbool (b : Bool)
  | num (n : Int)
  | str (s : String)
  | arr (elems : List Json)
  | obj (members : List (String × Json))
deriving Repr

mutual

/-- Structural boolean equality on `Json` (deriving cannot handle the nested
occurrences, so the instance is built by hand). -/
def beqJ : Json → Json → Bool
  | .null, .null => true
  | .jbool a, .jbool b => a == b
  | .num a, .num b => a == b
  | .str a, .str b => a == b
  | .arr a, .arr b => beqL a b
  | .obj a, .obj b => beqM a b
  | _, _ => false

/-- Boolean equality on JSON arrays. -/
def beqL : List Json → List Json → Bool
  | [], [] => true
  | a :: as, b :: bs => beqJ a b && beqL as bs
  | _, _ => false

/-- Boolean equality on JSON object member lists. -/
def beqM : List (String × Json) → List (String × Json) → Bool
  | [], [] => true
  | (k1, v1) :: as, (k2, v2) :: bs => k1 == k2 && beqJ v1 v2 && beqM as bs
  | _, _ => false

end

/-- The three boolean equalities each decide propositional equality. -/
theorem beqJ_spec :
    ∀ n : Nat,
      (∀ a b : Json, sizeOf a ≤ n → (beqJ a b = true ↔ a = b)) ∧
      (∀ as bs : List Json, sizeOf as ≤ n → (beqL as bs = true ↔ as = bs)) ∧
      (∀ ms ns : List (String × Json), sizeOf ms ≤ n → (beqM ms ns = true ↔ ms = ns)) := by
  intro n
  induction n with
  | zero =>
    refine ⟨fun a b h => ?_, fun as bs h => ?_, fun ms ns h => ?_⟩
    · exfalso; cases a <;> simp at h
    · exfalso; cases as <;> simp at h
    · exfalso; cases ms <;> simp at h
  | succ n ih =>
    obtain ⟨ihJ, ihL, ihM⟩ := ih
    refine ⟨fun a b ha => ?_, fun as bs ha => ?_, fun ms ns ha => ?_⟩
    · cases a <;> cases b <;> simp_all [beqJ]
      case arr.arr xs ys => exact ihL xs ys (by omega)
      case obj.obj xs ys => exact ihM xs ys (by omega)
    · cases as with
      | nil => cases bs <;> simp [beqL]
      | cons a as =>
        cases bs with
        | nil => simp [beqL]
        | cons b bs =>
          have h1 := ihJ a b (by simp at ha; omega)
          have h2 := ihL as bs (by simp at ha; omega)
          simp [beqL, h1, h2]
    · cases ms with
      | nil => cases ns <;> simp [beqM]
      | cons m ms =>
        cases ns with
        | nil => cases m; simp [beqM]
        | cons nn ns =>
          cases m with
          | mk k1 v1 =>
            cases nn with
            | mk k2 v2 =>
              have h1 := ihJ v1 v2 (by simp at ha; omega)
              have h2 := ihM ms ns (by simp at ha; omega)
              simp [beqM, h1, h2]

instance : DecidableEq Json :=
  fun a b => decidable_of_iff (beqJ a b = true) ((beqJ_spec (sizeOf a)).1 a b le_rfl)

/-! ### Printing (`json.dumps`) -/

/-- The character for a decimal digit. -/
def digitCh (d : Nat) : Char := Char.ofNat (48 + d)

/-- Decimal digits of a natural number, most significant first;
fuel-based so that it evaluates by kernel reduction. -/
def natDigitsAux : Nat → Nat → List Char
  | 0, _ => []
  | fuel + 1, n =>
    if n < 10 then [digitCh n]
    else natDigitsAux fuel (n / 10) ++ [digitCh (n % 10)]

/-- Decimal digits of a natural number (fuel `n + 1` always suffices). -/
def natDigits (n : Nat) : List Char := natDigitsAux (n + 1) n

/-- Decimal rendering of an integer, as `str`/`json.dumps` produce it. -/
def intChars (n : Int) : List Char :=
  if n < 0 then '-' :: natDigits n.natAbs else natDigits n.toNat

/-- String-body escaping as `json.dumps` performs it (restricted to the
quote, backslash, newline, tab and carriage-return characters). -/
def escChar (c : Char) : List Char :=
  if c = '"' then ['\\', '"']
  else if c = '\\' then ['\\', '\\']
  else if c = '\n' then ['\\', 'n']
  else if c = '\t' then ['\\', 't']
  else if c = '\r' then ['\\', 'r']
  else [c]

/-- Escape every character of a string body. -/
def escapeChars (cs : List Char) : List Char := (cs.map escChar).flatten

mutual

/-- `json.dumps`, at the character-list level, with the default separators. -/
def printJson : Json → List Char
  | .null => ['n', 'u', 'l', 'l']
  | .jbool true => ['t', 'r', 'u', 'e']
  | .jbool false => ['f', 'a', 'l', 's', 'e']
  | .num n => intChars n
  | .str s => '"' :: (escapeChars s.data ++ ['"'])
  | .arr [] => ['[', ']']
  | .arr (x :: xs) => '[' :: (printJson x ++ printElems xs ++ [']'])
  | .obj [] => ['\x7b', '\x7d']
  | .obj (kv :: kvs) => '\x7b' :: (printMember kv ++ printMembers kvs ++ ['\x7d'])

/-- One `"key": value` member. -/
def printMember : String × Json → List Char
  | (k, v) => '"' :: (escapeChars k.data ++ ['"', ':', ' '] ++ printJson v)

/-- The `, `-separated tail elements of an array. -/
def printElems : List Json → List Char
  | [] => []
  | x :: xs => ',' :: ' ' :: (printJson x ++ printElems xs)

/-- The `, `-separated tail members of an object. -/
def printMembers : List (String × Json) → List Char
  | [] => []
  | kv :: kvs => ',' :: ' ' :: (printMember kv ++ printMembers kvs)

end

/-- `json.dumps` as a string-valued function. -/
def json_dumps (j : Json) : String := String.mk (printJson j)

/-! ### Parsing (`json.loads`) -/

/-- Consume an expected literal character sequence. -/
def dropLit : List Char → List Char → Option (List Char)
  | [], cs => some cs
  | l :: ls, c :: cs => if c = l then dropLit ls cs else none
  | _ :: _, [] => none

/-- Undo one escape character. -/
def unescCh (c : Char) : Option Char :=
  if c = '"' then some '"'
  else if c = '\\' then some '\\'
  else if c = 'n' then some '\n'
  else if c = 't' then some '\t'
  else if c = 'r' then some '\r'
  else none

/-- Read a string body up to its closing quote, undoing escapes.  The fuel
argument only bounds the recursion depth (one unit per consumed source
character); callers pass one more than the input length, which always
suffices. -/
def parseStrBody : Nat → List Char → List Char → Option (String × List Char)
  | 0, _, _ => none
  | fuel + 1, acc, cs =>
    match cs with
    | [] => none
    | c :: rest =>
      if c = '"' then some (String.mk acc.reverse, rest)
      else if c = '\\' then
        match rest with
        | [] => none
        | e :: rest2 =>
          match unescCh e with
          | some d => parseStrBody fuel (d :: acc) rest2
          | none => none
      else parseStrBody fuel (c :: acc) rest

/-- Numeric value of a digit character. -/
def digitVal (c : Char) : Nat := c.toNat - 48

/-- Value of a most-significant-first digit list. -/
def digitsToNat (ds : List Char) : Nat :=
  ds.foldl (fun a c => a * 10 + digitVal c) 0

/-- Read a nonempty run of digits. -/
def parseNatNum (cs : List Char) : Option (Nat × List Char) :=
  let ds := cs.takeWhile Char.isDigit
  if ds = [] then none else some (digitsToNat ds, cs.dropWhile Char.isDigit)

/-- Read an optionally negated integer literal. -/
def parseNum : List Char → Option (Json × List Char)
  | [] => none
  | c :: rest =>
    if c = '-' then (parseNatNum rest).map (fun p => (Json.num (-(p.1 : Int)), p.2))
    else (parseNatNum (c :: rest)).map (fun p => (Json.num (p.1 : Int), p.2))

/-- Does the input begin a numeric literal? -/
def numStart : List Char → Bool
  | [] => false
  | c :: _ => c = '-' || c.isDigit

/-- Does the input begin with the given character? -/
def headIs (t : Char) : List Char → Bool
  | [] => false
  | c :: _ => c = t

mutual

/-- One JSON value, by strict recursive descent over `json.dumps` output.
The fuel argument only bounds the recursion depth; `json_loads` supplies a
sufficient amount. -/
def parseVal : Nat → List Char → Option (Json × List Char)
  | 0, _ => none
  | fuel + 1, cs =>
    if numStart cs then parseNum cs
    else
      match cs with
      | [] => none
      | c :: rest =>
        if c = 'n' then (dropLit ['u', 'l', 'l'] rest).map (fun r => (Json.null, r))
        else if c = 't' then (dropLit ['r', 'u', 'e'] rest).map (fun r => (Json.jbool true, r))
        else if c = 'f' then (dropLit ['a', 'l', 's', 'e'] rest).map (fun r => (Json.jbool false, r))
        else if c = '"' then (parseStrBody fuel [] rest).map (fun p => (Json.str p.1, p.2))
        else if c = '[' then
          if headIs ']' rest then some (Json.arr [], rest.tail)
          else
            match parseVal fuel rest with
            | some (v, r) =>
              match parseElemsRest fuel r with
              | some (vs, r2) => some (Json.arr (v :: vs), r2)
              | none => none
            | none => none
        else if c = '\x7b' then
          if headIs '\x7d' rest then some (Json.obj [], rest.tail)
          else
            match parseMemberKV fuel rest with
            | some (kv, r) =>
              match parseMembersRest fuel r with
              | some (kvs, r2) => some (Json.obj (kv :: kvs), r2)
              | none => none
            | none => none
        else none

/-- One `"key": value` object member. -/
def parseMemberKV : Nat → List Char → Option ((String × Json) × List Char)
  | 0, _ => none
  | fuel + 1, cs =>
    match cs with
    | '"' :: rest =>
      match parseStrBody fuel [] rest with
      | some (k, ':' :: ' ' :: r2) =>
        match parseVal fuel r2 with
        | some (v, r3) => some ((k, v), r3)
        | none => none
      | _ => none
    | _ => none

/-- The rest of an array after its first element: `, el`* `]`. -/
def parseElemsRest : Nat → List Char → Option (List Json × List Char)
  | 0, _ => none
  | fuel + 1, cs =>
    match cs with
    | ']' :: rest => some ([], rest)
    | ',' :: ' ' :: rest =>
      match parseVal fuel rest with
      | some (v, r) =>
        match parseElemsRest fuel r with
        | some (vs, r2) => some (v :: vs, r2)
        | none => none
      | none => none
    | _ => none

/-- The rest of an object after its first member: `, member`* and the
closing brace. -/
def parseMembersRest : Nat → List Char → Option (List (String × Json) × List Char)
  | 0, _ => none
  | fuel + 1, cs =>
    match cs with
    | '\x7d' :: rest => some ([], rest)
    | ',' :: ' ' :: rest =>
      match parseMemberKV fuel rest with
      | some (kv, r) =>
        match parseMembersRest fuel r with
        | some (kvs, r2) => some (kv :: kvs, r2)
        | none => none
      | none => none
    | _ => none

end

/-- `json.loads`: parse an entire string as one JSON value. -/
def json_loads (s : String) : Option Json :=
  match parseVal (s.length + 1) s.data with
  | some (v, []) => some v
  | _ => none

/-! ### The parser inverts the printer -/

mutual

/-- Recursion-fuel measure of a JSON value (strings count their length,
since the string-body reader consumes one fuel unit per character). -/
def jsize : Json → Nat
  | .null => 1
  | .jbool _ => 1
  | .num _ => 1
  | .str s => s.length + 2
  | .arr xs => 1 + lsizeJ xs
  | .obj ms => 1 + msizeJ ms

/-- Depth measure of an array's elements. -/
def lsizeJ : List Json → Nat
  | [] => 0
  | x :: xs => 1 + jsize x + lsizeJ xs

/-- Fuel measure of an object's members (keys count their length). -/
def msizeJ : List (String × Json) → Nat
  | [] => 0
  | (k, v) :: ms => k.length + 2 + jsize v + msizeJ ms

end

theorem jsize_pos (j : Json) : 1 ≤ jsize j := by
  cases j <;> simp [jsize]

theorem String.mk_data_eq (s : String) : String.mk s.data = s := by
  cases s; rfl

theorem escapeChars_nil : escapeChars [] = [] := rfl

theorem escapeChars_cons (c : Char) (cs : List Char) :
    escapeChars (c :: cs) = escChar c ++ escapeChars cs := by
  simp [escapeChars]

theorem parseStrBody_escape :
    ∀ (cs : List Char) (fuel : Nat) (acc rest : List Char), cs.length < fuel →
      parseStrBody fuel acc (escapeChars cs ++ '"' :: rest)
        = some (String.mk (acc.reverse ++ cs), rest) := by
  intro cs
  induction cs with
  | nil =>
    intro fuel acc rest hf
    cases fuel with
    | zero => omega
    | succ fuel => simp +decide [escapeChars_nil, parseStrBody]
  | cons c cs ih =>
    intro fuel acc rest hf
    cases fuel with
    | zero => simp at hf
    | succ fuel =>
      have hf2 : cs.length < fuel := by simp at hf; omega
      rw [escapeChars_cons]
      by_cases h1 : c = '"'
      · subst h1
        simp +decide [escChar, parseStrBody, unescCh, List.append_assoc, ih, hf2]
      · by_cases h2 : c = '\\'
        · subst h2
          simp +decide [escChar, parseStrBody, unescCh, List.append_assoc, ih, hf2]
        · by_cases h3 : c = '\n'
          · subst h3
            simp +decide [escChar, parseStrBody, unescCh, List.append_assoc, ih, hf2]
          · by_cases h4 : c = '\t'
            · subst h4
              simp +decide [escChar, parseStrBody, unescCh, List.append_assoc, ih, hf2]
            · by_cases h5 : c = '\r'
              · subst h5
                simp +decide [escChar, parseStrBody, unescCh, List.append_assoc, ih, hf2]
              · simp [escChar, h1, h2, h3, h4, h5, parseStrBody, ih, hf2]

theorem digitCh_isDigit : ∀ d, d < 10 → (digitCh d).isDigit = true := by decide

theorem digitVal_digitCh : ∀ d, d < 10 → digitVal (digitCh d) = d := by decide

theorem isDigit_ne_of_not_isDigit {c t : Char} (ht : t.isDigit = false)
    (hc : c.isDigit = true) : (c = t) = False := by
  simp only [eq_iff_iff, iff_false]
  intro h
  rw [h, ht] at hc
  exact Bool.false_ne_true hc

theorem natDigitsAux_spec :
    ∀ fuel n, n < fuel →
      natDigitsAux fuel n ≠ [] ∧ (∀ c ∈ natDigitsAux fuel n, c.isDigit = true) ∧
        digitsToNat (natDigitsAux fuel n) = n := by
  intro fuel
  induction fuel with
  | zero => intro n hn; omega
  | succ fuel ih =>
    intro n hn
    by_cases h : n < 10
    · refine ⟨by simp [natDigitsAux, h], ?_, ?_⟩
      · intro c hc
        simp [natDigitsAux, h] at hc
        subst hc
        exact digitCh_isDigit n h
      · simp [natDigitsAux, h, digitsToNat, digitVal_digitCh n h]
    · have hrec : n / 10 < fuel := by omega
      obtain ⟨hne, hdig, hval⟩ := ih (n / 10) hrec
      refine ⟨by simp [natDigitsAux, h], ?_, ?_⟩
      · intro c hc
        simp [natDigitsAux, h] at hc
        rcases hc with hc | hc
        · exact hdig c hc
        · subst hc; exact digitCh_isDigit (n % 10) (by omega)
      · have : digitsToNat (natDigitsAux fuel (n / 10) ++ [digitCh (n % 10)])
            = digitsToNat (natDigitsAux fuel (n / 10)) * 10 + digitVal (digitCh (n % 10)) := by
          simp [digitsToNat, List.foldl_append]
        simp only [natDigitsAux, if_neg h, this, hval, digitVal_digitCh (n % 10) (by omega)]
        omega

theorem natDigits_spec (m : Nat) :
    natDigits m ≠ [] ∧ (∀ c ∈ natDigits m, c.isDigit = true) ∧
      digitsToNat (natDigits m) = m :=
  natDigitsAux_spec (m + 1) m (by omega)

theorem takeWhile_append_of_all (p : Char → Bool) :
    ∀ (ds rest : List Char), (∀ c ∈ ds, p c = true) →
      (∀ c, rest.head? = some c → p c = false) →
      (ds ++ rest).takeWhile p = ds ∧ (ds ++ rest).dropWhile p = rest := by
  intro ds
  induction ds with
  | nil =>
    intro rest _ hrest
    cases rest with
    | nil => simp
    | cons c t => simp [List.takeWhile_cons, List.dropWhile_cons, hrest c rfl]
  | cons d ds ih =>
    intro rest hall hrest
    have hd : p d = true := hall d (by simp)
    obtain ⟨h1, h2⟩ := ih rest (fun c hc => hall c (by simp [hc])) hrest
    simp [List.takeWhile_cons, List.dropWhile_cons, hd, h1, h2]

theorem parseNatNum_digits (m : Nat) (rest : List Char)
    (hrest : ∀ c, rest.head? = some c → c.isDigit = false) :
    parseNatNum (natDigits m ++ rest) = some (m, rest) := by
  obtain ⟨hne, hdig, hval⟩ := natDigits_spec m
  obtain ⟨htake, hdrop⟩ := takeWhile_append_of_all Char.isDigit (natDigits m) rest hdig hrest
  simp [parseNatNum, htake, hdrop, hne, hval]

theorem parseNum_intChars (n : Int) (rest : List Char)
    (hrest : ∀ c, rest.head? = some c → c.isDigit = false) :
    parseNum (intChars n ++ rest) = some (.num n, rest) := by
  by_cases hneg : n < 0
  · have habs : (-(n.natAbs : Int)) = n := by omega
    have habs2 : -|n| = n := by rwa [Int.abs_eq_natAbs]
    simp +decide [intChars, hneg, parseNum, parseNatNum_digits n.natAbs rest hrest, habs, habs2]
  · obtain ⟨hne, hdig, _⟩ := natDigits_spec n.toNat
    obtain ⟨c, t, hct⟩ := List.exists_cons_of_ne_nil hne
    have hcdig : c.isDigit = true := hdig c (by rw [hct]; simp)
    have hcm : (c = '-') = False := isDigit_ne_of_not_isDigit (by decide) hcdig
    have htn : ((n.toNat : Int)) = n := by omega
    rw [intChars, if_neg hneg, hct, List.cons_append, parseNum, if_neg (by simp [hcm]),
      ← List.cons_append, ← hct, parseNatNum_digits n.toNat rest hrest]
    simp [htn]

theorem numStart_intChars (n : Int) (rest : List Char) :
    numStart (intChars n ++ rest) = true := by
  by_cases hneg : n < 0
  · simp +decide [intChars, hneg, numStart]
  · obtain ⟨hne, hdig, _⟩ := natDigits_spec n.toNat
    obtain ⟨c, t, hct⟩ := List.exists_cons_of_ne_nil hne
    have hcdig : c.isDigit = true := hdig c (by rw [hct]; simp)
    simp [intChars, hneg, hct, numStart, hcdig]

theorem headIs_printJson_append (t : Char) (j : Json) (r : List Char)
    (ht : t = ']' ∨ t = '\x7d') :
    headIs t (printJson j ++ r) = false := by
  have htd : t.isDigit = false := by rcases ht with h | h <;> subst h <;> decide
  have htm : (t = '-') = False := by
    rcases ht with h | h <;> subst h <;> simp +decide
  cases j with
  | num n =>
    by_cases hneg : n < 0
    · simp [printJson, intChars, hneg, headIs, Eq.comm, htm]
    · obtain ⟨hne, hdig, _⟩ := natDigits_spec n.toNat
      obtain ⟨c, tl, hct⟩ := List.exists_cons_of_ne_nil hne
      have hcdig : c.isDigit = true := hdig c (by rw [hct]; simp)
      simp [printJson, intChars, hneg, hct, headIs,
        isDigit_ne_of_not_isDigit htd hcdig]
  | jbool b =>
    cases b <;> rcases ht with h | h <;> subst h <;> simp +decide [printJson, headIs]
  | arr xs =>
    cases xs <;> rcases ht with h | h <;> subst h <;> simp +decide [printJson, headIs]
  | obj ms =>
    cases ms <;> rcases ht with h | h <;> subst h <;> simp +decide [printJson, headIs]
  | _ =>
    rcases ht with h | h <;> subst h <;> simp +decide [printJson, headIs]

theorem escChar_length_pos (c : Char) : 1 ≤ (escChar c).length := by
  unfold escChar
  split_ifs <;> simp

theorem escapeChars_length_ge : ∀ cs : List Char, cs.length ≤ (escapeChars cs).length := by
  intro cs
  induction cs with
  | nil => simp [escapeChars_nil]
  | cons c cs ih =>
    rw [escapeChars_cons]
    have := escChar_length_pos c
    simp only [List.length_append, List.length_cons]
    omega

/-- Parsing inverts printing: a printed value followed by any suffix that does
not begin with a digit parses back to the value, leaving the suffix, at any
sufficient fuel. -/
theorem parse_print :
    ∀ fuel : Nat,
      (∀ (j : Json) (rest : List Char), jsize j ≤ fuel →
        (∀ c, rest.head? = some c → c.isDigit = false) →
        parseVal fuel (printJson j ++ rest) = some (j, rest)) ∧
      (∀ (k : String) (v : Json) (rest : List Char), k.length + 1 + jsize v < fuel →
        (∀ c, rest.head? = some c → c.isDigit = false) →
        parseMemberKV fuel (printMember (k, v) ++ rest) = some ((k, v), rest)) ∧
      (∀ (xs : List Json) (rest : List Char), lsizeJ xs < fuel →
        parseElemsRest fuel (printElems xs ++ ']' :: rest) = some (xs, rest)) ∧
      (∀ (ms : List (String × Json)) (rest : List Char), msizeJ ms < fuel →
        parseMembersRest fuel (printMembers ms ++ '\x7d' :: rest) = some (ms, rest)) := by
  intro fuel
  induction fuel with
  | zero =>
    refine ⟨fun j rest hsz _ => ?_, fun k v rest hsz _ => ?_,
      fun xs rest hsz => ?_, fun ms rest hsz => ?_⟩
    · have := jsize_pos j; omega
    · omega
    · omega
    · omega
  | succ fuel ih =>
    obtain ⟨ihJ, ihKV, ihE, ihM⟩ := ih
    refine ⟨fun j rest hsz hb => ?_, fun k v rest hsz hb => ?_,
      fun xs rest hsz => ?_, fun ms rest hsz => ?_⟩
    · cases j with
      | null => simp +decide [printJson, parseVal, numStart, dropLit]
      | jbool b => cases b <;> simp +decide [printJson, parseVal, numStart, dropLit]
      | num n =>
        have h1 := numStart_intChars n rest
        have h2 := parseNum_intChars n rest hb
        simp only [printJson, parseVal, h1, if_true]
        exact h2
      | str s =>
        have hlen : s.data.length < fuel := by
          have h' : s.length + 2 ≤ fuel + 1 := by simpa [jsize] using hsz
          have h'' : s.data.length = s.length := rfl
          omega
        have hs := parseStrBody_escape s.data fuel [] rest hlen
        simp only [List.reverse_nil, List.nil_append, String.mk_data_eq] at hs
        simp +decide [printJson, parseVal, numStart, List.append_assoc, hs]
      | arr xs =>
        cases xs with
        | nil => simp +decide [printJson, parseVal, numStart, headIs]
        | cons x xs =>
          have hxp := jsize_pos x
          have hszx : jsize x ≤ fuel := by simp [jsize, lsizeJ] at hsz; omega
          have hsze : lsizeJ xs < fuel := by simp [jsize, lsizeJ] at hsz; omega
          have hbx : ∀ c, (printElems xs ++ ']' :: rest).head? = some c →
              c.isDigit = false := by
            cases xs <;> intro c hc <;> simp [printElems] at hc <;> subst hc <;> decide
          have h1 := ihJ x (printElems xs ++ ']' :: rest) hszx hbx
          have h2 := ihE xs rest hsze
          have hhead := headIs_printJson_append ']' x
            (printElems xs ++ ']' :: rest) (Or.inl rfl)
          simp +decide [printJson, parseVal, numStart, List.append_assoc, hhead, h1, h2]
      | obj ms =>
        cases ms with
        | nil => simp +decide [printJson, parseVal, numStart, headIs]
        | cons kv kvs =>
          obtain ⟨k, v⟩ := kv
          have hvp := jsize_pos v
          have hszv : k.length + 1 + jsize v < fuel := by
            simp [jsize, msizeJ] at hsz; omega
          have hszm : msizeJ kvs < fuel := by simp [jsize, msizeJ] at hsz; omega
          have hbv : ∀ c, (printMembers kvs ++ '\x7d' :: rest).head? = some c →
              c.isDigit = false := by
            cases kvs <;> intro c hc <;> simp [printMembers] at hc <;> subst hc <;> decide
          have h1 := ihKV k v (printMembers kvs ++ '\x7d' :: rest) hszv hbv
          have h2 := ihM kvs rest hszm
          have hhead : headIs '\x7d'
              (printMember (k, v) ++ (printMembers kvs ++ '\x7d' :: rest)) = false := by
            simp +decide [printMember, headIs]
          simp +decide [printJson, parseVal, numStart, List.append_assoc, hhead, h1, h2]
    · have hvp := jsize_pos v
      have hlen : k.data.length < fuel := by
        have : k.data.length = k.length := rfl
        omega
      have hs := parseStrBody_escape k.data fuel [] (':' :: ' ' :: (printJson v ++ rest)) hlen
      simp only [List.reverse_nil, List.nil_append, String.mk_data_eq] at hs
      have h1 := ihJ v rest (by omega) hb
      simp +decide [printMember, parseMemberKV, List.append_assoc, hs, h1]
    · cases xs with
      | nil => simp +decide [printElems, parseElemsRest]
      | cons x xs =>
        have hxp := jsize_pos x
        have hszx : jsize x ≤ fuel := by simp [lsizeJ] at hsz; omega
        have hsze : lsizeJ xs < fuel := by simp [lsizeJ] at hsz; omega
        have hbx : ∀ c, (printElems xs ++ ']' :: rest).head? = some c →
            c.isDigit = false := by
          cases xs <;> intro c hc <;> simp [printElems] at hc <;> subst hc <;> decide
        have h1 := ihJ x (printElems xs ++ ']' :: rest) hszx hbx
        have h2 := ihE xs rest hsze
        simp +decide [printElems, parseElemsRest, List.append_assoc, h1, h2]
    · cases ms with
      | nil => simp +decide [printMembers, parseMembersRest]
      | cons kv kvs =>
        obtain ⟨k, v⟩ := kv
        have hvp := jsize_pos v
        have hszv : k.length + 1 + jsize v < fuel := by simp [msizeJ] at hsz; omega
        have hszm : msizeJ kvs < fuel := by simp [msizeJ] at hsz; omega
        have hbv : ∀ c, (printMembers kvs ++ '\x7d' :: rest).head? = some c →
            c.isDigit = false := by
          cases kvs <;> intro c hc <;> simp [printMembers] at hc <;> subst hc <;> decide
        have h1 := ihKV k v (printMembers kvs ++ '\x7d' :: rest) hszv hbv
        have h2 := ihM kvs rest hszm
        simp +decide [printMembers, parseMembersRest, List.append_assoc, h1, h2]

/-- The fuel measure of a value is bounded by its printed length. -/
theorem print_length :
    ∀ n : Nat,
      (∀ j : Json, sizeOf j ≤ n → jsize j ≤ (printJson j).length) ∧
      (∀ xs : List Json, sizeOf xs ≤ n → lsizeJ xs ≤ (printElems xs).length) ∧
      (∀ ms : List (String × Json), sizeOf ms ≤ n → msizeJ ms ≤ (printMembers ms).length) := by
  intro n
  induction n with
  | zero =>
    refine ⟨fun j h => ?_, fun xs h => ?_, fun ms h => ?_⟩
    · exfalso; cases j <;> simp at h
    · exfalso; cases xs <;> simp at h
    · exfalso; cases ms <;> simp at h
  | succ n ih =>
    obtain ⟨ihJ, ihL, ihM⟩ := ih
    refine ⟨fun j h => ?_, fun xs h => ?_, fun ms h => ?_⟩
    · cases j with
      | null => simp [jsize, printJson]
      | jbool b => cases b <;> simp [jsize, printJson]
      | num nn =>
        obtain ⟨hne, -, -⟩ := natDigits_spec nn.toNat
        have h1 : 1 ≤ (natDigits nn.toNat).length := List.length_pos.mpr hne
        obtain ⟨hne2, -, -⟩ := natDigits_spec nn.natAbs
        have h2 : 1 ≤ (natDigits nn.natAbs).length := List.length_pos.mpr hne2
        by_cases hneg : nn < 0 <;>
          first
          | (simp [jsize, printJson, intChars, hneg]; omega)
          | simp [jsize, printJson, intChars, hneg]
      | str s =>
        have he := escapeChars_length_ge s.data
        have hsl : s.data.length = s.length := rfl
        simp [jsize, printJson]
        omega
      | arr xs =>
        cases xs with
        | nil => simp [jsize, lsizeJ, printJson]
        | cons x xs =>
          have h1 := ihJ x (by simp at h; omega)
          have h2 := ihL xs (by simp at h; omega)
          simp [jsize, lsizeJ, printJson] at h1 h2 ⊢
          omega
      | obj ms =>
        cases ms with
        | nil => simp [jsize, msizeJ, printJson]
        | cons kv kvs =>
          obtain ⟨k, v⟩ := kv
          have h1 := ihJ v (by simp at h; omega)
          have h2 := ihM kvs (by simp at h; omega)
          have he := escapeChars_length_ge k.data
          have hkl : k.data.length = k.length := rfl
          simp [jsize, msizeJ, printJson, printMember] at h1 h2 ⊢
          omega
    · cases xs with
      | nil => simp [lsizeJ, printElems]
      | cons x xs =>
        have h1 := ihJ x (by simp at h; omega)
        have h2 := ihL xs (by simp at h; omega)
        simp [lsizeJ, printElems] at h1 h2 ⊢
        omega
    · cases ms with
      | nil => simp [msizeJ, printMembers]
      | cons kv kvs =>
        obtain ⟨k, v⟩ := kv
        have h1 := ihJ v (by simp at h; omega)
        have h2 := ihM kvs (by simp at h; omega)
        have he := escapeChars_length_ge k.data
        have hkl : k.data.length = k.length := rfl
        simp [msizeJ, printMembers, printMember] at h1 h2 ⊢
        omega

/-- `json.loads` inverts `json.dumps`. -/
theorem json_loads_dumps (j : Json) : json_loads (json_dumps j) = some j := by
  have hA := (print_length (sizeOf j)).1 j le_rfl
  have h := (parse_print ((printJson j).length + 1)).1 j [] (by omega)
    (by intro c hc; simp at hc)
  rw [List.append_nil] at h
  have hdata : (json_dumps j).data = printJson j := rfl
  have hlen : (json_dumps j).length = (printJson j).length := rfl
  simp only [json_loads, hdata, hlen, h]

/-! ## Python runtime values -/

/-- A Python runtime value as far as the module can observe one: `None`,
scalars, a list/dict container (carried as its JSON form), or a deferred
`kfp.dsl` `PipelineParam` placeholder. -/
inductive PyValue where
  | vNone
  | vStr (s : String)
  | vInt (n : Int)
  | vBool (b : Bool)
  | vJson (j : Json)
  | vPipelineParam (nm : String)
deriving DecidableEq, Repr

/-- `isinstance(value, kfp.dsl._pipeline_param.PipelineParam)`. -/
def isPipelineParam : PyValue → Bool
  | .vPipelineParam _ => true
  | _ => false

/-- The JSON form of a value, when it has one (a `PipelineParam` object does
not: `json.dumps` raises `TypeError` on it). -/
def jsonOfValue : PyValue → Option Json
  | .vNone => some .null
  | .vStr s => some (.str s)
  | .vInt n => some (.num n)
  | .vBool b => some (.jbool b)
  | .vJson j => some j
  | .vPipelineParam _ => none

/-- `json.dumps` applied to a Python value; `none` models the `TypeError`
raised on non-serializable objects. -/
def pyDumps (v : PyValue) : Option String :=
  (jsonOfValue v).map json_dumps

/-- `get_serializer` (utils.py lines 134-146): `json.dumps` exactly for
JSON-serializable container annotations, implicitly `None` otherwise. -/
def get_serializer (ann : Annot) : Option (PyValue → Option String) :=
  if is_serializable_to_json ann then some pyDumps else none

/-- `get_deserializer` (utils.py lines 149-160): `json.loads` exactly for
JSON-serializable container annotations, implicitly `None` otherwise. -/
def get_deserializer (ann : Annot) : Option (String → Option Json) :=
  if is_serializable_to_json ann then some json_loads else none

mutual

/-- Modelled `repr()` of a parsed container value (string quoting
simplified), used only through `str()` in static command-line arguments. -/
def pyReprJ : Json → String
  | .null => "None"
  | .jbool true => "True"
  | .jbool false => "False"
  | .num n => toString n
  | .str s => "'" ++ s ++ "'"
  | .arr xs => "[" ++ pyReprElems xs ++ "]"
  | .obj ms => "\x7b" ++ pyReprMembers ms ++ "\x7d"

/-- Comma-separated element list of a `repr()`ed Python list. -/
def pyReprElems : List Json → String
  | [] => ""
  | [x] => pyReprJ x
  | x :: xs => pyReprJ x ++ ", " ++ pyReprElems xs

/-- Comma-separated member list of a `repr()`ed Python dict. -/
def pyReprMembers : List (String × Json) → String
  | [] => ""
  | [(k, v)] => "'" ++ k ++ "': " ++ pyReprJ v
  | (k, v) :: ms => "'" ++ k ++ "': " ++ pyReprJ v ++ ", " ++ pyReprMembers ms

end

/-- Python `str()` of a value, as it is interpolated into an f-string. -/
def pyStrOf : PyValue → String
  | .vNone => "None"
  | .vStr s => s
  | .vInt n => toString n
  | .vBool true => "True"
  | .vBool false => "False"
  | .vJson j => pyReprJ j
  | .vPipelineParam nm => "\x7b\x7bpipelineparam:op=;name=" ++ nm ++ "\x7d\x7d"

/-! ## Signatures (the `inspect` model) -/

/-- `inspect.Parameter.kind`. -/
inductive ParamKind where
  | positionalOnly
  | positionalOrKeyword
  | varPositional
  | keywordOnly
  | varKeyword
deriving DecidableEq, Repr

/-- An `inspect.Parameter`: name, kind, default (`none` models
`inspect.Parameter.empty`) and annotation. -/
structure PyParam where
  name : String
  kind : ParamKind
  default : Option PyValue
  annot : Annot
deriving DecidableEq, Repr

/-- An `inspect.Signature`: ordered parameters and a return annotation. -/
structure PySignature where
  parameters : List PyParam
  return_annot : Annot
deriving DecidableEq, Repr

/-- Python dict assignment `d[k] = v`: replaces the value in place when the
key is present, otherwise appends, preserving insertion order. -/
def dictInsert : List (String × α) → String → α → List (String × α)
  | [], k, v => [(k, v)]
  | x :: d, k, v => if x.1 = k then (k, v) :: d else x :: dictInsert d k v

/-- Python dict lookup `d.get(k)`. -/
def dictGet : List (String × α) → String → Option α
  | [], _ => none
  | x :: d, k => if x.1 = k then some x.2 else dictGet d k

/-- The annotation that `filter_signature` installs on a renamed resource
parameter: the `self_type` argument (the owning class), or `None` when the
argument was not supplied. -/
def annotOfSelf : Option PyClass → Annot
  | some c => .cls c
  | none => .noneAnn

/-- `filter_signature` (utils.py lines 213-255): drops the parameters named
in `PARAMS_TO_REMOVE`; on a constructor signature additionally replaces each
resource-name parameter `x_name` by `x`, annotated with the owning class,
recording the rename; the rename dictionary is threaded through as an
explicit value (the Python code mutates it in place).  `filterStep` is the
body of the `for param in signature.parameters.values()` loop. -/
def filterStep ( is_init_signature : Bool) (self_type : Option PyClass)
    (acc : List PyParam × List (String × String)) (param : PyParam) :
    List PyParam × List (String × String) :=
  if param.name ∈ PARAMS_TO_REMOVE then acc
  else if is_init_signature && is_resource_name_parameter_name param.name then
    let new_name := strDropRight param.name 5
    (acc.1 ++ [⟨new_name, param.kind, param.default, annotOfSelf self_type⟩],
     dictInsert acc.2 new_name param.name)
  else (acc.1 ++ [param], acc.2)

/-- `filter_signature`, continued: the loop folds `filterStep` over the
parameters, starting from the supplied rename dictionary. -/
def filter_signature (signature : PySignature) ( is_init_signature : Bool)
    (self_type : Option PyClass)
    (component_param_name_to_mb_sdk_param_name : List (String × String)) :
    PySignature × List (String × String) :=
  let r := signature.parameters.foldl (filterStep is_init_signature self_type)
    ([], component_param_name_to_mb_sdk_param_name)
  (⟨r.1, signature.return_annot⟩, r.2)

/-- The sort key of `signatures_union` (utils.py lines 271-276): parameters
without a default sort before parameters with one. -/
def unionKey (param : PyParam) : Int :=
  if param.default = none then -1 else 1

/-- Insert before the first element strictly greater under `le`; keeps an
earlier element ahead of later equal ones. -/
def insertLe (le : α → α → Bool) (a : α) : List α → List α
  | [] => [a]
  | b :: bs => if le a b then a :: b :: bs else b :: insertLe le a bs

/-- Insertion sort with a `≤` test: a stable sort, as Python's `list.sort`
is guaranteed to be. -/
def insertionSort (le : α → α → Bool) : List α → List α
  | [] => []
  | a :: as => insertLe le a (insertionSort le as)

/-- `signatures_union` (utils.py lines 258-283): concatenate the constructor
and method parameters, stably sort no-default parameters to the front, and
keep the method's return annotation. -/
def signatures_union (init_sig method_sig : PySignature) : PySignature :=
  ⟨insertionSort (fun a b => unionKey a ≤ unionKey b)
      (init_sig.parameters ++ method_sig.parameters),
    method_sig.return_annot⟩

/-! ## The component generator

`convert_method_to_component` precomputes the filtered signatures, rename
map and outputs blocks, then closes over them in
`component_yaml_generator`.  The closure's body is modelled as a pure
function from that context and the call's keyword arguments to either a
raised exception or the generated manifest text (the trailing
`load_component_from_text` handoff and the debug `print` are outside the
model). -/

/-- `INIT_KEY` (utils.py line 27). -/
def INIT_KEY : String := "init"

/-- `METHOD_KEY` (utils.py line 28). -/
def METHOD_KEY : String := "method"

/-- `DEFAULT_CONTAINER_IMAGE` (utils.py line 32). -/
def DEFAULT_CONTAINER_IMAGE : String :=
  "gcr.io/sashaproject-1/aiplatform_component:latest"

/-- The Python exceptions the generator can raise. -/
inductive GenError where
  | keyError      -- `signature.parameters[key]` on an unknown key
  | typeError     -- `json.dumps` of a non-serializable object, or unpacking `None`
  | bindError     -- `inspect.Signature.bind` rejecting the arguments
deriving DecidableEq, Repr

/-- The accumulators of the keyword-argument loop in
`component_yaml_generator` (utils.py lines 490-497): the `serialized_args`
dict is split into its fixed `init` and `method` sub-dicts. -/
structure LoopState where
  inputs : List String
  input_args : List String
  input_kwargs : List (String × PyValue)
  serialized_init : List (String × PyValue)
  serialized_method : List (String × PyValue)
  init_kwargs : List (String × PyValue)
  method_kwargs : List (String × PyValue)
deriving DecidableEq, Repr

/-- The loop accumulators' initial values (utils.py lines 490-497). -/
def initLoopState : LoopState := ⟨["inputs:"], [], [], [], [], [], []⟩

/-- The context captured by the generated wrapper: names, the filtered
signatures, the rename map, the constructor-argument name set and the
precomputed outputs blocks. -/
structure GenCtx where
  cls_name : String
  method_name : String
  should_serialize_init : Bool
  init_signature : PySignature
  method_signature : PySignature
  renames : List (String × String)
  init_arg_names : List String
  outputs : String
  output_args : String
deriving DecidableEq, Repr

/-- One iteration of the keyword-argument loop of
`component_yaml_generator` (utils.py lines 499-547): partition the argument,
skip `None`, look the parameter up (a `KeyError` surfaces on an unknown
name), serialize container-typed values, and classify the argument as a
pipeline input or a static serialized argument. -/
def processKwarg (ctx : GenCtx) (st : LoopState) (key : String) (value : PyValue) :
    Except GenError LoopState :=
  let inInit := ctx.init_arg_names.contains key
  let prefix_key := if inInit then INIT_KEY else METHOD_KEY
  let st1 :=
    if inInit then { st with init_kwargs := dictInsert st.init_kwargs key value }
    else { st with method_kwargs := dictInsert st.method_kwargs key value }
  let signature := if inInit then ctx.init_signature else ctx.method_signature
  if value = .vNone then .ok st1
  else
    match signature.parameters.find? (fun p => p.name = key) with
    | none => .error .keyError
    | some param =>
      let param_type0 := resolve_annot param.annot
      let serOpt := get_serializer param_type0
      let serialized : Except GenError (Annot × PyValue) :=
        match serOpt with
        | some f =>
          match f value with
          | some s => .ok (.cls .pyStr, .vStr s)
          | none => .error .typeError
        | none => .ok (param_type0, value)
      match serialized with
      | .error e => .error e
      | .ok pv =>
        let param_type := pv.1
        let value2 := pv.2
        let component_param_name := (dictGet ctx.renames key).getD key
        if isPipelineParam value2 || serOpt.isSome then
          match
            (if is_mb_sdk_resource_noun_type param_type then
              match map_resource_to_metadata_type param_type with
              | some md => Except.ok (md.2, "inputPath")
              | none => Except.error GenError.typeError
            else Except.ok ("String", "inputValue")) with
          | .error e => .error e
          | .ok ct =>
            .ok { st1 with
              inputs := st1.inputs ++
                ["- \x7bname: " ++ key ++ ", type: " ++ ct.1 ++ "\x7d"],
              input_args := st1.input_args ++
                ["    - --" ++ prefix_key ++ "." ++ component_param_name ++
                  "\n    - \x7b" ++ ct.2 ++ ": " ++ key ++ "\x7d"],
              input_kwargs := dictInsert st1.input_kwargs key value2 }
        else
          if inInit then
            .ok { st1 with
              serialized_init :=
                dictInsert st1.serialized_init component_param_name value2 }
          else
            .ok { st1 with
              serialized_method :=
                dictInsert st1.serialized_method component_param_name value2 }

/-- The `for key, value in kwargs.items()` loop, propagating any raise. -/
def runKwargLoop (ctx : GenCtx) :
    LoopState → List (String × PyValue) → Except GenError LoopState
  | st, [] => .ok st
  | st, kv :: rest =>
    match processKwarg ctx st kv.1 kv.2 with
    | .error e => .error e
    | .ok st2 => runKwargLoop ctx st2 rest

/-- `inspect.Signature.bind(**kwargs)` succeeding: every supplied name names
a parameter and every parameter without a default is supplied (the modelled
parameters are all plain keyword-bindable parameters). -/
def bindOk (signature : PySignature) (kw : List (String × PyValue)) : Bool :=
  kw.all (fun p => signature.parameters.any (fun q => q.name = p.1)) &&
    signature.parameters.all
      (fun q => q.default.isSome || kw.any (fun p => p.1 = q.name))

/-- `make_args` (utils.py lines 473-487): one `--init.<name>=<value>` or
`--method.<name>=<value>` line per serialized static argument, the `init`
dict first, each dict in insertion order. -/
def make_args (serialized_init serialized_method : List (String × PyValue)) : String :=
  String.intercalate "\n"
    ((serialized_init.map (fun kv =>
        "    - --" ++ INIT_KEY ++ "." ++ kv.1 ++ "=" ++ pyStrOf kv.2)) ++
      (serialized_method.map (fun kv =>
        "    - --" ++ METHOD_KEY ++ "." ++ kv.1 ++ "=" ++ pyStrOf kv.2)))

/-- The manifest text assembly (utils.py lines 554-566). -/
def componentText (ctx : GenCtx) (st : LoopState) : String :=
  let inputs := if st.inputs.length > 1 then String.intercalate "\n" st.inputs else ""
  let input_args := if st.input_args ≠ [] then String.intercalate "\n" st.input_args else ""
  String.intercalate "\n"
    ["name: " ++ ctx.cls_name ++ "-" ++ ctx.method_name, inputs, ctx.outputs,
      "implementation:", "  container:",
      "    image: " ++ DEFAULT_CONTAINER_IMAGE, "    command:", "    - python3",
      "    - -m", "    - google_cloud_components.aiplatform.remote_runner",
      "    - --cls_name=" ++ ctx.cls_name,
      "    - --method_name=" ++ ctx.method_name,
      make_args st.serialized_init st.serialized_method,
      "    args:", ctx.output_args, input_args]

/-- `component_yaml_generator` (utils.py lines 489-568): run the
keyword-argument loop, validate both partitions by binding them against the
filtered signatures, and render the manifest text. -/
def component_yaml_generator (ctx : GenCtx) (kwargs : List (String × PyValue)) :
    Except GenError String :=
  match runKwargLoop ctx initLoopState kwargs with
  | .error e => .error e
  | .ok st =>
    if ctx.should_serialize_init && !bindOk ctx.init_signature st.init_kwargs then
      .error .bindError
    else if !bindOk ctx.method_signature st.method_kwargs then
      .error .bindError
    else
      .ok (componentText ctx st)

/-- The outputs computation of `convert_method_to_component` (utils.py lines
456-471): a truthy resolved return annotation is looked up in the metadata
map and the resulting pair is unpacked — unpacking the `None` of an unmapped
type raises a `TypeError`. -/
def computeOutputs (return_annot : Annot) : Except GenError (String × String) :=
  let output_type := resolve_annot return_annot
  if pyTruthy output_type then
    match map_resource_to_metadata_type output_type with
    | none => .error .typeError
    | some md =>
      .ok ("outputs:\n- \x7bname: " ++ md.1 ++ ", type: " ++ md.2 ++ "\x7d",
        "    - --resource_name_output_artifact_path\n    - \x7boutputPath: " ++
          md.1 ++ "\x7d")
  else .ok ("", "")

/-- `convert_method_to_component` (utils.py lines 370-463) up to the closure
definition: filter both signatures, collect the rename map, fix the
partition name set, and compute the outputs blocks.  `is_function` is
`inspect.isfunction(method)`, raw signatures stand in for
`inspect.signature(...)` of the method and constructor. -/
def convert_method_to_component (cls_name : String) (cls : PyClass)
    (method_name : String) ( is_function : Bool)
    (init_sig_raw method_sig_raw : PySignature) : Except GenError GenCtx :=
  let method_signature := (filter_signature method_sig_raw false none []).1
  let initFiltered := filter_signature init_sig_raw true (some cls) []
  let init_signature := initFiltered.1
  let should_serialize_init := is_function
  let init_arg_names :=
    if should_serialize_init then init_signature.parameters.map (fun p => p.name)
    else []
  match computeOutputs method_signature.return_annot with
  | .error e => .error e
  | .ok op =>
    .ok ⟨cls_name, method_name, should_serialize_init, init_signature,
      method_signature, initFiltered.2, init_arg_names, op.1, op.2⟩

/-! ## The claims -/

/-! ### C2: the type-to-artifact mapper -/

/-- Claim C2 counterexample: the resolved type `'_Dataset'` (the unresolvable
forward-reference string left intact by `resolve_annotation`) is neither a
resource-noun class nor a JSON-serializable container, yet the mapper returns
`("dataset", "Dataset")` for it rather than nothing. -/
theorem claim_C2_counterexample :
    is_mb_sdk_resource_noun_type (.strAnn "_Dataset") = false ∧
    is_serializable_to_json (.strAnn "_Dataset") = false ∧
    resolve_annot (.strAnn "_Dataset") = .strAnn "_Dataset" ∧
    map_resource_to_metadata_type (.strAnn "_Dataset") = some ("dataset", "Dataset") := by
  refine ⟨rfl, rfl, rfl, ?_⟩
  decide

/-- Claim C2 (amended): the mapper takes a resource-noun class to the
(name, label) pair of the first — hence, the keys being pairwise unrelated,
unique and most specific — matching table key, with the key's lowered,
underscore-stripped name; a resource-noun class under no key falls through to
nothing; a JSON-serializable container maps to
`("exported_dataset", "JsonArray")`; the literal string `'_Dataset'` maps to
`("dataset", "Dataset")`; every other type maps to nothing. -/
theorem claim_C2_map_resource_to_metadata_type :
    (∀ (t : Annot) (kv : PyClass × String), is_mb_sdk_resource_noun_type t = true →
      RESOURCE_TO_METADATA_TYPE.find? (fun e => annotIsSubclassOf t e.1) = some kv →
      map_resource_to_metadata_type t = some (metadataParamName kv.1.pyName, kv.2)) ∧
    (∀ c : MBClass,
      (RESOURCE_TO_METADATA_TYPE.filter
          (fun e => annotIsSubclassOf (.cls (.mb c)) e.1)).length ≤ 1) ∧
    (∀ t : Annot, is_mb_sdk_resource_noun_type t = true →
      RESOURCE_TO_METADATA_TYPE.find? (fun e => annotIsSubclassOf t e.1) = none →
      map_resource_to_metadata_type t = none) ∧
    (∀ t : Annot, is_serializable_to_json t = true →
      map_resource_to_metadata_type t = some ("exported_dataset", "JsonArray")) ∧
    (map_resource_to_metadata_type (.strAnn "_Dataset") = some ("dataset", "Dataset")) ∧
    (∀ t : Annot, is_mb_sdk_resource_noun_type t = false →
      is_serializable_to_json t = false → t ≠ .strAnn "_Dataset" →
      map_resource_to_metadata_type t = none) := by
  refine ⟨?_, ?_, ?_, ?_, ?_, ?_⟩
  · intro t kv h hf
    simp [map_resource_to_metadata_type, h, hf]
  · decide
  · intro t h hf
    have hser : is_serializable_to_json t = false := by
      cases t <;> simp_all [is_mb_sdk_resource_noun_type, annotIsResourceClass,
        is_serializable_to_json]
    have hstr : ¬(t = .strAnn "_Dataset") := by
      intro he; subst he; simp [is_mb_sdk_resource_noun_type, annotIsResourceClass] at h
    simp [map_resource_to_metadata_type, h, hf, hser, hstr]
  · intro t h
    have hmb : is_mb_sdk_resource_noun_type t = false := by
      cases t <;> simp_all [is_mb_sdk_resource_noun_type, annotIsResourceClass,
        is_serializable_to_json]
    simp [map_resource_to_metadata_type, hmb, h]
  · decide
  · intro t h1 h2 h3
    simp [map_resource_to_metadata_type, h1, h2, h3]

/-- Claim C2 witness: the amended characterization applied at concrete
types — `ImageDataset` matches the `_Dataset` table key. -/
theorem claim_C2_witness :
    map_resource_to_metadata_type (.cls (.mb .imageDataset))
        = some ("dataset", "Dataset") ∧
    map_resource_to_metadata_type (.container .listO)
        = some ("exported_dataset", "JsonArray") ∧
    map_resource_to_metadata_type (.cls .pyStr) = none := by
  refine ⟨?_, ?_, ?_⟩
  · exact (claim_C2_map_resource_to_metadata_type).1 (.cls (.mb .imageDataset))
      (.mb .uDataset, "Dataset") (by decide) (by decide)
  · exact (claim_C2_map_resource_to_metadata_type).2.2.2.1 (.container .listO) rfl
  · exact (claim_C2_map_resource_to_metadata_type).2.2.2.2.2 (.cls .pyStr) rfl rfl
      (by decide)

/-! ### C4: the signature merger -/

theorem insertLe_all_false {le : α → α → Bool} (a : α) :
    ∀ (A B : List α), (∀ b ∈ A, le a b = false) →
      insertLe le a (A ++ B) = A ++ insertLe le a B := by
  intro A
  induction A with
  | nil => intro B _; simp
  | cons x A ih =>
    intro B h
    have hx := h x (List.mem_cons_self x A)
    simp [insertLe, hx, ih B (fun b hb => h b (List.mem_cons_of_mem x hb))]

theorem insertLe_all_true {le : α → α → Bool} (a : α) :
    ∀ B : List α, (∀ b ∈ B, le a b = true) → insertLe le a B = a :: B := by
  intro B h
  cases B with
  | nil => rfl
  | cons x B => simp [insertLe, h x (List.mem_cons_self x B)]

theorem insertionSort_unionKey (l : List PyParam) :
    insertionSort (fun a b => unionKey a ≤ unionKey b) l
      = l.filter (fun p => p.default.isNone) ++ l.filter (fun p => p.default.isSome) := by
  induction l with
  | nil => rfl
  | cons a l ih =>
    rw [insertionSort, ih]
    by_cases ha : a.default = none
    · have hua : unionKey a = -1 := by simp [unionKey, ha]
      have haN : a.default.isNone = true := by simp [ha]
      have haS : a.default.isSome = false := by simp [ha]
      have hTrue : ∀ b ∈ (l.filter (fun p : PyParam => p.default.isNone) ++
          l.filter (fun p : PyParam => p.default.isSome)),
          (fun p q : PyParam => (unionKey p ≤ unionKey q : Bool)) a b = true := by
        intro b _
        show decide (unionKey a ≤ unionKey b) = true
        rw [hua]
        by_cases hb : b.default = none
        · have hub : unionKey b = -1 := by simp [unionKey, hb]
          rw [hub]; rfl
        · have hub : unionKey b = 1 := by simp [unionKey, hb]
          rw [hub]; rfl
      rw [insertLe_all_true _ _ hTrue]
      simp [List.filter_cons, haN, haS]
    · have hua : unionKey a = 1 := by simp [unionKey, ha]
      have haN : a.default.isNone = false := by
        cases hd : a.default
        · exact absurd hd ha
        · rfl
      have haS : a.default.isSome = true := by
        cases hd : a.default
        · exact absurd hd ha
        · rfl
      have hFalse : ∀ b ∈ l.filter (fun p : PyParam => p.default.isNone),
          (fun p q : PyParam => (unionKey p ≤ unionKey q : Bool)) a b = false := by
        intro b hb
        have hbN := (List.mem_filter.mp hb).2
        have hbd : b.default = none := by simpa using hbN
        have hub : unionKey b = -1 := by simp [unionKey, hbd]
        show decide (unionKey a ≤ unionKey b) = false
        rw [hua, hub]; rfl
      have hTrue : ∀ b ∈ l.filter (fun p : PyParam => p.default.isSome),
          (fun p q : PyParam => (unionKey p ≤ unionKey q : Bool)) a b = true := by
        intro b hb
        have hbS := (List.mem_filter.mp hb).2
        have hbd : ¬(b.default = none) := by
          intro he; rw [he] at hbS; simp at hbS
        have hub : unionKey b = 1 := by simp [unionKey, hbd]
        show decide (unionKey a ≤ unionKey b) = true
        rw [hua, hub]; rfl
      rw [insertLe_all_false _ _ _ hFalse, insertLe_all_true _ _ hTrue]
      simp [List.filter_cons, haN, haS]

/-- Claim C4: the signature merger returns exactly the constructor's
parameters followed by the method's parameters, stably reordered so that
every parameter without a default precedes every parameter with one, and its
return annotation is the method's. -/
theorem claim_C4_signatures_union (init_sig method_sig : PySignature) :
    (signatures_union init_sig method_sig).parameters
        = (init_sig.parameters ++ method_sig.parameters).filter
            (fun p => p.default.isNone) ++
          (init_sig.parameters ++ method_sig.parameters).filter
            (fun p => p.default.isSome) ∧
    (signatures_union init_sig method_sig).return_annot
        = method_sig.return_annot :=
  ⟨insertionSort_unionKey _, rfl⟩

/-! ### C5: the annotation resolver -/

/-- Every name the modelled `aiplatform` namespace exports is a
resource-noun class. -/
theorem aiplatformAttr_resource (s : String) (cl : PyClass)
    (h : aiplatformAttr s = some cl) : annotIsResourceClass (.cls cl) = true := by
  unfold aiplatformAttr at h
  split at h <;> simp_all <;> subst h <;> decide

/-- Claim C5: `resolve_annotation` returns a resource-noun class annotation
itself; resolves a string or `ForwardRef` naming an exported class to that
class; takes a union to its first argument, resolved through a forward
reference when possible; resolves the empty annotation to `None`; and leaves
everything else unchanged. -/
theorem claim_C5_resolve_annot :
    (∀ c : PyClass, annotIsResourceClass (.cls c) = true →
      resolve_annot (.cls c) = .cls c) ∧
    (∀ (s : String) (cl : PyClass), aiplatformAttr s = some cl →
      resolve_annot (.strAnn s) = .cls cl ∧ annotIsResourceClass (.cls cl) = true) ∧
    (∀ (s : String) (cl : PyClass), aiplatformAttr s = some cl →
      resolve_annot (.fwdRef s) = .cls cl) ∧
    (∀ first : Annot, resolve_annot (.union first)
        = (match get_forward_reference first with
           | some cl => .cls cl
           | none => first)) ∧
    (resolve_annot .empty = .noneAnn) ∧
    (∀ c : PyClass, annotIsResourceClass (.cls c) = false →
      resolve_annot (.cls c) = .cls c) ∧
    (∀ s : String, aiplatformAttr s = none → resolve_annot (.strAnn s) = .strAnn s) ∧
    (∀ s : String, aiplatformAttr s = none → resolve_annot (.fwdRef s) = .fwdRef s) ∧
    (∀ o : COrigin, resolve_annot (.container o) = .container o) ∧
    (resolve_annot .noneAnn = .noneAnn) ∧
    (∀ tg : String, resolve_annot (.other tg) = .other tg) := by
  refine ⟨?_, ?_, ?_, ?_, rfl, ?_, ?_, ?_, fun o => rfl, rfl, fun tg => rfl⟩
  · intro c h; simp [resolve_annot, h]
  · intro s cl h
    exact ⟨by simp [resolve_annot, annotIsResourceClass, get_forward_reference, h],
      aiplatformAttr_resource s cl h⟩
  · intro s cl h; simp [resolve_annot, annotIsResourceClass, get_forward_reference, h]
  · intro first; rfl
  · intro c h; simp [resolve_annot, h, get_forward_reference]
  · intro s h; simp [resolve_annot, annotIsResourceClass, get_forward_reference, h]
  · intro s h; simp [resolve_annot, annotIsResourceClass, get_forward_reference, h]

/-- Claim C5 witness: the resolver applied to concrete annotations of each
kind. -/
theorem claim_C5_witness :
    resolve_annot (.cls (.mb .model)) = .cls (.mb .model) ∧
    resolve_annot (.strAnn "Endpoint") = .cls (.mb .endpoint) ∧
    resolve_annot (.union (.strAnn "Model")) = .cls (.mb .model) ∧
    resolve_annot (.cls .pyStr) = .cls .pyStr := by
  refine ⟨?_, ?_, ?_, ?_⟩
  · exact (claim_C5_resolve_annot).1 (.mb .model) (by decide)
  · exact ((claim_C5_resolve_annot).2.1 "Endpoint" (.mb .endpoint) rfl).1
  · exact (claim_C5_resolve_annot).2.2.2.1 (.strAnn "Model")
  · exact (claim_C5_resolve_annot).2.2.2.2.2.1 .pyStr (by decide)

/-! ### C9: serializer and deserializer -/

/-- Claim C9: the serializer getter returns a serializer exactly when the
deserializer getter returns a deserializer — both exactly for
JSON-serializable container annotations — and on every value with a JSON
form, deserializing the serialized string returns that value. -/
theorem claim_C9_serializer_deserializer (ann : Annot) :
    ((get_serializer ann).isSome = (get_deserializer ann).isSome) ∧
    ((get_serializer ann).isSome = is_serializable_to_json ann) ∧
    (∀ f g, get_serializer ann = some f → get_deserializer ann = some g →
      ∀ (v : PyValue) (s : String), f v = some s → g s = jsonOfValue v) := by
  refine ⟨?_, ?_, ?_⟩
  · unfold get_serializer get_deserializer
    split <;> rfl
  · unfold get_serializer
    split <;> simp_all
  · intro f g hf hg v s hfv
    unfold get_serializer at hf
    unfold get_deserializer at hg
    by_cases h : is_serializable_to_json ann = true
    · rw [if_pos h] at hf hg
      injection hf with hf
      injection hg with hg
      subst hf
      subst hg
      unfold pyDumps at hfv
      obtain ⟨j, hj, hs⟩ := Option.map_eq_some'.mp hfv
      rw [hj, ← hs]
      exact json_loads_dumps j
    · rw [if_neg h] at hf
      exact absurd hf (by simp)

/-- Claim C9 witness: the list annotation's serializer and deserializer
round-trip a concrete container value. -/
theorem claim_C9_witness :
    get_serializer (.container .listO) = some pyDumps ∧
    get_deserializer (.container .listO) = some json_loads ∧
    json_loads "[3, \"ab\"]" = jsonOfValue (.vJson (.arr [.num 3, .str "ab"])) := by
  refine ⟨rfl, rfl, ?_⟩
  exact (claim_C9_serializer_deserializer (.container .listO)).2.2 pyDumps json_loads
    rfl rfl (.vJson (.arr [.num 3, .str "ab"])) "[3, \"ab\"]" (by rfl)

/-! ### C3: the signature filter -/

/-- A suffix test splits the string: dropping the suffix's length from the
right and re-appending the suffix restores the string. -/
theorem strEndsWith_dropRight (s t : String) (h : strEndsWith s t = true) :
    strDropRight s t.length ++ t = s := by
  unfold strEndsWith at h
  rw [List.isSuffixOf_iff_suffix] at h
  obtain ⟨pre, hpre⟩ := h
  have htl : t.length = t.data.length := rfl
  have hlen : s.data.length - t.length = pre.length := by
    rw [← hpre, htl]; simp
  have htake : s.data.take (s.data.length - t.length) = pre := by
    rw [hlen, ← hpre, List.take_left]
  have hmk : strDropRight s t.length = String.mk pre := by
    unfold strDropRight; rw [htake]
  rw [hmk]
  have happ : String.mk pre ++ t = String.mk (pre ++ t.data) := by
    cases t; rfl
  rw [happ, hpre, String.mk_data_eq]

/-- A resource-name parameter name ends in `_name`. -/
theorem resName_endsWith {nm : String}
    (h : is_resource_name_parameter_name nm = true) :
    strEndsWith nm "_name" = true := by
  unfold is_resource_name_parameter_name at h
  simp only [Bool.and_eq_true] at h
  exact h.2

/-- A resource-name parameter name is its shortened form plus `_name`. -/
theorem resName_split {nm : String}
    (h : is_resource_name_parameter_name nm = true) :
    strDropRight nm 5 ++ "_name" = nm := by
  have := strEndsWith_dropRight nm "_name" (resName_endsWith h)
  simpa using this

theorem dictGet_insert_self :
    ∀ (d : List (String × α)) (k : String) (v : α),
      dictGet (dictInsert d k v) k = some v := by
  intro d k v
  induction d with
  | nil => simp [dictInsert, dictGet]
  | cons x d ih =>
    simp only [dictInsert]
    by_cases hx : x.1 = k
    · rw [if_pos hx]
      simp [dictGet]
    · rw [if_neg hx]
      simp only [dictGet]
      rw [if_neg hx]
      exact ih

theorem dictGet_insert_other :
    ∀ (d : List (String × α)) (k : String) (v : α) (k2 : String), k2 ≠ k →
      dictGet (dictInsert d k v) k2 = dictGet d k2 := by
  intro d k v k2 hne
  have hne2 : ¬(k = k2) := fun he => hne he.symm
  induction d with
  | nil =>
    simp only [dictInsert, dictGet]
    rw [if_neg hne2]
  | cons x d ih =>
    simp only [dictInsert]
    by_cases hx : x.1 = k
    · rw [if_pos hx]
      have hx2 : ¬(x.1 = k2) := by rw [hx]; exact hne2
      simp only [dictGet]
      rw [if_neg hne2, if_neg hx2]
    · rw [if_neg hx]
      simp only [dictGet]
      by_cases hx2 : x.1 = k2
      · rw [if_pos hx2, if_pos hx2]
      · rw [if_neg hx2, if_neg hx2, ih]

/-- The claim's per-parameter rule for constructor-signature filtering,
stated from the spec's words, for comparison with `filter_signature`:
remove `self`/`credentials`/`sync`; rename a `*_name` parameter (excluding
`display_name` and `*encryption_spec_key_name`) by dropping the suffix,
keeping kind and default and retyping it with the owning class; pass
everything else through. -/
def claimFilterRule (c : PyClass) (p : PyParam) : Option PyParam :=
  if p.name = "self" ∨ p.name = "credentials" ∨ p.name = "sync" then none
  else if p.name ≠ "display_name" ∧
      strEndsWith p.name "encryption_spec_key_name" = false ∧
      strEndsWith p.name "_name" = true then
    some ⟨strDropRight p.name 5, p.kind, p.default, .cls c⟩
  else some p

/-- The removal test of the source agrees with the claim's name list. -/
theorem remove_iff (nm : String) :
    nm ∈ PARAMS_TO_REMOVE ↔ (nm = "self" ∨ nm = "credentials" ∨ nm = "sync") := by
  simp [PARAMS_TO_REMOVE]

/-- The rename test of the source agrees with the claim's conditions. -/
theorem resName_iff (nm : String) :
    is_resource_name_parameter_name nm = true ↔
      (nm ≠ "display_name" ∧ strEndsWith nm "encryption_spec_key_name" = false ∧
        strEndsWith nm "_name" = true) := by
  unfold is_resource_name_parameter_name
  simp [Bool.and_eq_true, and_assoc]

theorem filterStep_remove {b : Bool} {st : Option PyClass} {acc ren}
    {p : PyParam} (h1 : p.name ∈ PARAMS_TO_REMOVE) :
    filterStep b st (acc, ren) p = (acc, ren) := by
  simp [filterStep, h1]

theorem filterStep_rename {st : Option PyClass} {acc ren} {p : PyParam}
    (h1 : p.name ∉ PARAMS_TO_REMOVE)
    (h2 : is_resource_name_parameter_name p.name = true) :
    filterStep true st (acc, ren) p
      = (acc ++ [⟨strDropRight p.name 5, p.kind, p.default, annotOfSelf st⟩],
         dictInsert ren (strDropRight p.name 5) p.name) := by
  simp [filterStep, h1, h2]

theorem filterStep_keep {b : Bool} {st : Option PyClass} {acc ren} {p : PyParam}
    (h1 : p.name ∉ PARAMS_TO_REMOVE)
    (h2 : (b && is_resource_name_parameter_name p.name) = false) :
    filterStep b st (acc, ren) p = (acc ++ [p], ren) := by
  simp [filterStep, h1, h2]

theorem filter_foldl_params_init (c : PyClass) :
    ∀ (ps : List PyParam) (acc : List PyParam) (ren : List (String × String)),
      (ps.foldl (filterStep true (some c)) (acc, ren)).1
        = acc ++ ps.filterMap (claimFilterRule c) := by
  intro ps
  induction ps with
  | nil => intro acc ren; simp
  | cons p ps ih =>
    intro acc ren
    rw [List.foldl_cons]
    by_cases h1 : p.name ∈ PARAMS_TO_REMOVE
    · have hc : claimFilterRule c p = none := by
        rw [claimFilterRule, if_pos ((remove_iff p.name).mp h1)]
      rw [filterStep_remove h1, ih, List.filterMap_cons, hc]
    · cases h2 : is_resource_name_parameter_name p.name with
      | false =>
        have hc : claimFilterRule c p = some p := by
          rw [claimFilterRule, if_neg (fun hh => h1 ((remove_iff p.name).mpr hh)),
            if_neg (fun hh => by rw [(resName_iff p.name).mpr hh] at h2; cases h2)]
        rw [filterStep_keep h1 (by simp [h2]), ih, List.filterMap_cons, hc]
        simp
      | true =>
        have hc : claimFilterRule c p
            = some ⟨strDropRight p.name 5, p.kind, p.default, .cls c⟩ := by
          rw [claimFilterRule, if_neg (fun hh => h1 ((remove_iff p.name).mpr hh)),
            if_pos ((resName_iff p.name).mp h2)]
        rw [filterStep_rename h1 h2, ih, List.filterMap_cons, hc]
        simp [annotOfSelf]

theorem filter_foldl_noninit (st : Option PyClass) :
    ∀ (ps : List PyParam) (acc : List PyParam) (ren : List (String × String)),
      ps.foldl (filterStep false st) (acc, ren)
        = (acc ++ ps.filter (fun p => p.name ∉ PARAMS_TO_REMOVE), ren) := by
  intro ps
  induction ps with
  | nil => intro acc ren; simp
  | cons p ps ih =>
    intro acc ren
    rw [List.foldl_cons]
    by_cases h1 : p.name ∈ PARAMS_TO_REMOVE
    · rw [filterStep_remove h1, ih]
      simp [List.filter_cons, h1]
    · rw [filterStep_keep h1 (by simp), ih]
      simp [List.filter_cons, h1]

theorem filter_foldl_ren (c : PyClass) :
    ∀ (ps : List PyParam) (acc : List PyParam) (ren : List (String × String)) (k : String),
      (dictGet ren k = some (k ++ "_name") ∨
        ∃ p ∈ ps, p.name ∉ PARAMS_TO_REMOVE ∧
          is_resource_name_parameter_name p.name = true ∧ strDropRight p.name 5 = k) →
      dictGet (ps.foldl (filterStep true (some c)) (acc, ren)).2 k
        = some (k ++ "_name") := by
  intro ps
  induction ps with
  | nil =>
    intro acc ren k h
    rcases h with h | ⟨p, hp, _⟩
    · exact h
    · simp at hp
  | cons p ps ih =>
    intro acc ren k h
    rw [List.foldl_cons]
    have step2 : ∀ hin : dictGet (filterStep true (some c) (acc, ren) p).2 k
        = some (k ++ "_name"),
        dictGet (ps.foldl (filterStep true (some c))
          (filterStep true (some c) (acc, ren) p)).2 k = some (k ++ "_name") := by
      intro hin
      have := ih (filterStep true (some c) (acc, ren) p).1
        (filterStep true (some c) (acc, ren) p).2 k (Or.inl hin)
      simpa using this
    rcases h with h | ⟨q, hq, hq1, hq2, hq3⟩
    · apply step2
      by_cases h1 : p.name ∈ PARAMS_TO_REMOVE
      · rw [filterStep_remove h1]
        exact h
      · cases h2 : is_resource_name_parameter_name p.name with
        | false =>
          rw [filterStep_keep h1 (by simp [h2])]
          exact h
        | true =>
          rw [filterStep_rename h1 h2]
          by_cases hk : strDropRight p.name 5 = k
          · have hpn : p.name = k ++ "_name" := by
              rw [← hk]; exact (resName_split h2).symm
            show dictGet (dictInsert ren (strDropRight p.name 5) p.name) k = _
            rw [hk, hpn]
            exact dictGet_insert_self ren k _
          · show dictGet (dictInsert ren (strDropRight p.name 5) p.name) k = _
            rw [dictGet_insert_other ren _ _ k (fun he => hk he.symm)]
            exact h
    · rcases List.mem_cons.mp hq with hqp | hqs
      · subst hqp
        apply step2
        rw [filterStep_rename hq1 hq2]
        show dictGet (dictInsert ren (strDropRight q.name 5) q.name) k = _
        have hpn : q.name = k ++ "_name" := by
          rw [← hq3]; exact (resName_split hq2).symm
        rw [hq3, hpn]
        exact dictGet_insert_self ren k _
      · have := ih (filterStep true (some c) (acc, ren) p).1
          (filterStep true (some c) (acc, ren) p).2 k
          (Or.inr ⟨q, hqs, hq1, hq2, hq3⟩)
        simpa using this

/-- Claim C3: the signature filter removes exactly `self`, `credentials` and
`sync`; on a constructor signature it additionally replaces every remaining
`*_name` parameter (excluding `display_name` and `*encryption_spec_key_name`)
by a same-kind, same-default parameter named without the suffix and annotated
with the owning resource class, recording new-name-to-original-name in the
rename dictionary; all other parameters pass through unchanged and in
order. -/
theorem claim_C3_filter_signature (sig : PySignature) (c : PyClass) :
    ((filter_signature sig true (some c) []).1.parameters
        = sig.parameters.filterMap (claimFilterRule c)) ∧
    ((filter_signature sig true (some c) []).1.return_annot = sig.return_annot) ∧
    (∀ p ∈ sig.parameters, p.name ∉ PARAMS_TO_REMOVE →
        is_resource_name_parameter_name p.name = true →
        dictGet (filter_signature sig true (some c) []).2 (strDropRight p.name 5)
          = some p.name) ∧
    (∀ (st : Option PyClass) (r : List (String × String)),
      (filter_signature sig false st r).1.parameters
          = sig.parameters.filter (fun p => p.name ∉ PARAMS_TO_REMOVE) ∧
      (filter_signature sig false st r).2 = r) := by
  refine ⟨?_, rfl, ?_, ?_⟩
  · have := filter_foldl_params_init c sig.parameters [] []
    simpa [filter_signature] using this
  · intro p hp h1 h2
    have := filter_foldl_ren c sig.parameters [] [] (strDropRight p.name 5)
      (Or.inr ⟨p, hp, h1, h2, rfl⟩)
    have hpn : p.name = strDropRight p.name 5 ++ "_name" := (resName_split h2).symm
    rw [filter_signature]
    rw [← hpn] at this
    exact this
  · intro st r
    have := filter_foldl_noninit st sig.parameters [] r
    constructor
    · simp [filter_signature, this]
    · simp [filter_signature, this]

/-- Claim C3 witness: a small constructor signature with a rename, and a
method signature with a removal. -/
theorem claim_C3_witness :
    (filter_signature
        ⟨[⟨"self", .positionalOrKeyword, none, .empty⟩,
          ⟨"model_name", .positionalOrKeyword, none, .cls .pyStr⟩,
          ⟨"display_name", .positionalOrKeyword, none, .cls .pyStr⟩], .empty⟩
        true (some (.mb .model)) []).1.parameters
      = [⟨"model", .positionalOrKeyword, none, .cls (.mb .model)⟩,
         ⟨"display_name", .positionalOrKeyword, none, .cls .pyStr⟩] ∧
    dictGet (filter_signature
        ⟨[⟨"self", .positionalOrKeyword, none, .empty⟩,
          ⟨"model_name", .positionalOrKeyword, none, .cls .pyStr⟩,
          ⟨"display_name", .positionalOrKeyword, none, .cls .pyStr⟩], .empty⟩
        true (some (.mb .model)) []).2 "model" = some "model_name" := by
  constructor
  · rw [(claim_C3_filter_signature
      ⟨[⟨"self", .positionalOrKeyword, none, .empty⟩,
        ⟨"model_name", .positionalOrKeyword, none, .cls .pyStr⟩,
        ⟨"display_name", .positionalOrKeyword, none, .cls .pyStr⟩], .empty⟩
      (.mb .model)).1]
    decide
  · have h := (claim_C3_filter_signature
      ⟨[⟨"self", .positionalOrKeyword, none, .empty⟩,
        ⟨"model_name", .positionalOrKeyword, none, .cls .pyStr⟩,
        ⟨"display_name", .positionalOrKeyword, none, .cls .pyStr⟩], .empty⟩
      (.mb .model)).2.2.1 ⟨"model_name", .positionalOrKeyword, none, .cls .pyStr⟩
      (by simp) (by decide) (by decide)
    have hk : strDropRight "model_name" 5 = "model" := by decide
    rw [hk] at h
    exact h

/-! ### C6: outputs for unmapped return types -/

instance {ε α : Type} [DecidableEq ε] [DecidableEq α] : DecidableEq (Except ε α) :=
  fun a b =>
    match a, b with
    | .error e1, .error e2 =>
      if h : e1 = e2 then isTrue (by rw [h]) else isFalse (fun he => h (by injection he))
    | .error _, .ok _ => isFalse (fun he => Except.noConfusion he)
    | .ok _, .error _ => isFalse (fun he => Except.noConfusion he)
    | .ok v1, .ok v2 =>
      if h : v1 = v2 then isTrue (by rw [h]) else isFalse (fun he => h (by injection he))

/-- Claim C6 counterexample: a method whose resolved return annotation is the
builtin class `str` — truthy, but absent from the type-to-artifact mapping —
does not yield an empty outputs section: component generation raises a
`TypeError` while unpacking the mapper's `None`. -/
theorem claim_C6_counterexample :
    resolve_annot (.cls .pyStr) = .cls .pyStr ∧
    map_resource_to_metadata_type (.cls .pyStr) = none ∧
    computeOutputs (.cls .pyStr) = .error .typeError ∧
    convert_method_to_component "Foo" (.mb .model) "bar" true
        ⟨[], .empty⟩ ⟨[], .cls .pyStr⟩
      = .error .typeError := by
  refine ⟨rfl, by decide, by decide, by decide⟩

/-- Claim C6 (amended): when the resolved return annotation is falsy
(absent/`None`), generation completes and both outputs blocks are empty;
when it is truthy but unmapped, generation raises while unpacking `None`. -/
theorem claim_C6_outputs (cls_name : String) (cls : PyClass)
    (method_name : String) ( is_function : Bool)
    (init_sig_raw method_sig_raw : PySignature) :
    (pyTruthy (resolve_annot method_sig_raw.return_annot) = false →
      ∃ ctx, convert_method_to_component cls_name cls method_name is_function
          init_sig_raw method_sig_raw = .ok ctx ∧
        ctx.outputs = "" ∧ ctx.output_args = "") ∧
    (pyTruthy (resolve_annot method_sig_raw.return_annot) = true →
      map_resource_to_metadata_type (resolve_annot method_sig_raw.return_annot) = none →
      convert_method_to_component cls_name cls method_name is_function
          init_sig_raw method_sig_raw = .error .typeError) := by
  have hret : (filter_signature method_sig_raw false none []).1.return_annot
      = method_sig_raw.return_annot := rfl
  constructor
  · intro h
    have hco : computeOutputs (filter_signature method_sig_raw false none []).1.return_annot
        = .ok ("", "") := by
      rw [hret]; unfold computeOutputs; rw [if_neg (by simp [h])]
    simp only [convert_method_to_component, hco]
    exact ⟨_, rfl, rfl, rfl⟩
  · intro h1 h2
    have hco : computeOutputs (filter_signature method_sig_raw false none []).1.return_annot
        = .error .typeError := by
      rw [hret]; unfold computeOutputs; rw [if_pos (by simp [h1]), h2]
    simp only [convert_method_to_component, hco]

/-- Claim C6 witness: a `None`-annotated return completes with empty
outputs, and a `str`-annotated one raises. -/
theorem claim_C6_witness :
    convert_method_to_component "Foo" (.mb .model) "bar" true
        ⟨[], .empty⟩ ⟨[], .noneAnn⟩
      = .ok ⟨"Foo", "bar", true, ⟨[], .empty⟩, ⟨[], .noneAnn⟩, [], [], "", ""⟩ ∧
    convert_method_to_component "Foo" (.mb .model) "bar" true
        ⟨[], .empty⟩ ⟨[], .cls .pyStr⟩
      = .error .typeError := by
  constructor
  · have h := (claim_C6_outputs "Foo" (.mb .model) "bar" true
      ⟨[], .empty⟩ ⟨[], .noneAnn⟩).1 rfl
    exact rfl
  · exact (claim_C6_outputs "Foo" (.mb .model) "bar" true
      ⟨[], .empty⟩ ⟨[], .cls .pyStr⟩).2 rfl (by decide)

/-! ### C8: determinism of the manifest -/

/-- A small context for the C8 separation: a method with two optional
plain-string parameters and no constructor participation. -/
def ctx8 : GenCtx :=
  ⟨"C", "m", false, ⟨[], .empty⟩,
    ⟨[⟨"a", .positionalOrKeyword, some .vNone, .cls .pyStr⟩,
      ⟨"b", .positionalOrKeyword, some .vNone, .cls .pyStr⟩], .empty⟩,
    [], [], "", ""⟩

set_option maxRecDepth 40000 in
/-- Claim C8 counterexample: two calls whose keyword arguments are equal as
mappings (a permutation; both lookups agree) both succeed yet produce
different manifest texts — the static `--method.<name>=<value>` lines follow
the kwargs insertion order. -/
theorem claim_C8_counterexample :
    List.Perm [("a", PyValue.vStr "1"), ("b", PyValue.vStr "2")]
      [("b", PyValue.vStr "2"), ("a", PyValue.vStr "1")] ∧
    dictGet [("a", PyValue.vStr "1"), ("b", PyValue.vStr "2")] "a"
      = dictGet [("b", PyValue.vStr "2"), ("a", PyValue.vStr "1")] "a" ∧
    dictGet [("a", PyValue.vStr "1"), ("b", PyValue.vStr "2")] "b"
      = dictGet [("b", PyValue.vStr "2"), ("a", PyValue.vStr "1")] "b" ∧
    (component_yaml_generator ctx8
        [("a", PyValue.vStr "1"), ("b", PyValue.vStr "2")]).toOption ≠ none ∧
    (component_yaml_generator ctx8
        [("b", PyValue.vStr "2"), ("a", PyValue.vStr "1")]).toOption ≠ none ∧
    component_yaml_generator ctx8 [("a", PyValue.vStr "1"), ("b", PyValue.vStr "2")]
      ≠ component_yaml_generator ctx8 [("b", PyValue.vStr "2"), ("a", PyValue.vStr "1")] := by
  refine ⟨by decide, rfl, rfl, by decide, by decide, by decide⟩

/-- Claim C8 (amended): the manifest is a pure function of the captured
class/method context and the ordered keyword-argument sequence — two calls
supplying the same arguments in the same order produce identical text, with
no dependence on any other state. -/
theorem claim_C8_deterministic (ctx : GenCtx) (kw1 kw2 : List (String × PyValue))
    (h : kw1 = kw2) :
    component_yaml_generator ctx kw1 = component_yaml_generator ctx kw2 := by
  rw [h]

/-- Claim C8 witness: the determinism theorem applied at a concrete call. -/
theorem claim_C8_witness :
    component_yaml_generator ctx8 [("a", PyValue.vStr "1")]
      = component_yaml_generator ctx8 [("a", PyValue.vStr "1")] :=
  claim_C8_deterministic ctx8 [("a", PyValue.vStr "1")] [("a", PyValue.vStr "1")] rfl

/-! ### C1: classification of supplied keyword arguments -/

/-- The argument's partition record: what the loop writes into `init_kwargs`
or `method_kwargs` before any classification. -/
def partitionUpdate (ctx : GenCtx) (st : LoopState) (key : String)
    (value : PyValue) : LoopState :=
  if ctx.init_arg_names.contains key then
    { st with init_kwargs := dictInsert st.init_kwargs key value }
  else { st with method_kwargs := dictInsert st.method_kwargs key value }

/-- The argument's flag prefix: `init` or `method`. -/
def prefKey (ctx : GenCtx) (key : String) : String :=
  if ctx.init_arg_names.contains key then INIT_KEY else METHOD_KEY

/-- Extending the loop state with one pipeline input: the `inputs:` entry,
the flag/placeholder argument pair, and the runtime input value. -/
def inputExtend (ctx : GenCtx) (st1 : LoopState) (key ty bindKind : String)
    (v2 : PyValue) : LoopState :=
  { st1 with
    inputs := st1.inputs ++ ["- \x7bname: " ++ key ++ ", type: " ++ ty ++ "\x7d"],
    input_args := st1.input_args ++
      ["    - --" ++ prefKey ctx key ++ "." ++ ((dictGet ctx.renames key).getD key) ++
        "\n    - \x7b" ++ bindKind ++ ": " ++ key ++ "\x7d"],
    input_kwargs := dictInsert st1.input_kwargs key v2 }

/-- Claim C1 (amended): each supplied keyword argument is classified by its
resolved annotation and value. The serializer is chosen from the annotation
alone: under a JSON-serializable container annotation, a value with a JSON
form is serialized and becomes a `String` input bound by `inputValue`, but a
deferred pipeline reference supplied there is fed to `json.dumps` and the
loop step raises `TypeError` — it becomes no input and no static argument. A
pipeline reference whose non-serializable resolved annotation is a mapped
resource-noun class becomes an input typed with the artifact label, bound by
`inputPath`; a pipeline reference of any other non-serializable resolved
type becomes a `String` input bound by `inputValue`; every other non-`None`
value becomes a static serialized argument under its partition's prefix and
is not listed as an input; `make_args` renders each such argument as
`--init.<name>=<value>` or `--method.<name>=<value>`. -/
theorem claim_C1_kwarg_classification (ctx : GenCtx) (st : LoopState)
    (key : String) (value : PyValue) (param : PyParam)
    (hsig : (if ctx.init_arg_names.contains key then ctx.init_signature
        else ctx.method_signature).parameters.find? (fun p => p.name = key)
        = some param) :
    (∀ sstr : String, is_serializable_to_json (resolve_annot param.annot) = true →
      value ≠ .vNone → pyDumps value = some sstr →
      processKwarg ctx st key value
        = .ok (inputExtend ctx (partitionUpdate ctx st key value) key
            "String" "inputValue" (.vStr sstr))) ∧
    (isPipelineParam value = true →
      is_serializable_to_json (resolve_annot param.annot) = true →
      processKwarg ctx st key value = .error .typeError) ∧
    (∀ (nm : String) (md : String × String),
      is_serializable_to_json (resolve_annot param.annot) = false →
      value = .vPipelineParam nm →
      is_mb_sdk_resource_noun_type (resolve_annot param.annot) = true →
      map_resource_to_metadata_type (resolve_annot param.annot) = some md →
      processKwarg ctx st key value
        = .ok (inputExtend ctx (partitionUpdate ctx st key value) key
            md.2 "inputPath" value)) ∧
    (∀ nm : String, is_serializable_to_json (resolve_annot param.annot) = false →
      value = .vPipelineParam nm →
      is_mb_sdk_resource_noun_type (resolve_annot param.annot) = false →
      processKwarg ctx st key value
        = .ok (inputExtend ctx (partitionUpdate ctx st key value) key
            "String" "inputValue" value)) ∧
    (is_serializable_to_json (resolve_annot param.annot) = false →
      isPipelineParam value = false → value ≠ .vNone →
      processKwarg ctx st key value
        = .ok (if ctx.init_arg_names.contains key then
            { partitionUpdate ctx st key value with
              serialized_init :=
                dictInsert (partitionUpdate ctx st key value).serialized_init
                  ((dictGet ctx.renames key).getD key) value }
          else
            { partitionUpdate ctx st key value with
              serialized_method :=
                dictInsert (partitionUpdate ctx st key value).serialized_method
                  ((dictGet ctx.renames key).getD key) value })) ∧
    (∀ (nm : String) (v : PyValue),
      make_args [(nm, v)] [] = "    - --init." ++ nm ++ "=" ++ pyStrOf v ∧
      make_args [] [(nm, v)] = "    - --method." ++ nm ++ "=" ++ pyStrOf v) := by
  refine ⟨?_, ?_, ?_, ?_, ?_, ?_⟩
  · intro sstr hser hvn hdump
    have hgs : get_serializer (resolve_annot param.annot) = some pyDumps := by
      simp [get_serializer, hser]
    cases hin : ctx.init_arg_names.contains key with
    | true =>
      rw [hin] at hsig
      simp only [if_true] at hsig
      have hm : key ∈ ctx.init_arg_names := by simpa using hin
      simp +decide [processKwarg, hin, hm, hsig, hvn, hgs, hdump, isPipelineParam,
        is_mb_sdk_resource_noun_type, annotIsResourceClass, isSubclassOf,
        inputExtend, partitionUpdate, prefKey]
    | false =>
      rw [hin, if_neg (by simp : ¬(false = true))] at hsig
      have hm : ¬(key ∈ ctx.init_arg_names) := by simpa using hin
      simp +decide [processKwarg, hin, hm, hsig, hvn, hgs, hdump, isPipelineParam,
        is_mb_sdk_resource_noun_type, annotIsResourceClass, isSubclassOf,
        inputExtend, partitionUpdate, prefKey]
  · intro hpp hser
    have hgs : get_serializer (resolve_annot param.annot) = some pyDumps := by
      simp [get_serializer, hser]
    obtain ⟨nm, hv⟩ : ∃ nm, value = .vPipelineParam nm := by
      cases value <;> simp [isPipelineParam] at hpp
      exact ⟨_, rfl⟩
    subst hv
    have hdump : pyDumps (.vPipelineParam nm) = none := rfl
    cases hin : ctx.init_arg_names.contains key with
    | true =>
      rw [hin] at hsig
      simp only [if_true] at hsig
      have hm : key ∈ ctx.init_arg_names := by simpa using hin
      simp [processKwarg, hin, hm, hsig, hgs, hdump]
    | false =>
      rw [hin, if_neg (by simp : ¬(false = true))] at hsig
      have hm : ¬(key ∈ ctx.init_arg_names) := by simpa using hin
      simp [processKwarg, hin, hm, hsig, hgs, hdump]
  · intro nm md hser hv hmb hmap
    subst hv
    have hgs : get_serializer (resolve_annot param.annot) = none := by
      simp [get_serializer, hser]
    cases hin : ctx.init_arg_names.contains key with
    | true =>
      rw [hin] at hsig
      simp only [if_true] at hsig
      have hm : key ∈ ctx.init_arg_names := by simpa using hin
      simp [processKwarg, hin, hm, hsig, hgs, hmb, hmap, isPipelineParam,
        inputExtend, partitionUpdate, prefKey]
    | false =>
      rw [hin, if_neg (by simp : ¬(false = true))] at hsig
      have hm : ¬(key ∈ ctx.init_arg_names) := by simpa using hin
      simp [processKwarg, hin, hm, hsig, hgs, hmb, hmap, isPipelineParam,
        inputExtend, partitionUpdate, prefKey]
  · intro nm hser hv hmb
    subst hv
    have hgs : get_serializer (resolve_annot param.annot) = none := by
      simp [get_serializer, hser]
    cases hin : ctx.init_arg_names.contains key with
    | true =>
      rw [hin] at hsig
      simp only [if_true] at hsig
      have hm : key ∈ ctx.init_arg_names := by simpa using hin
      simp [processKwarg, hin, hm, hsig, hgs, hmb, isPipelineParam,
        inputExtend, partitionUpdate, prefKey]
    | false =>
      rw [hin, if_neg (by simp : ¬(false = true))] at hsig
      have hm : ¬(key ∈ ctx.init_arg_names) := by simpa using hin
      simp [processKwarg, hin, hm, hsig, hgs, hmb, isPipelineParam,
        inputExtend, partitionUpdate, prefKey]
  · intro hser hpp hvn
    have hgs : get_serializer (resolve_annot param.annot) = none := by
      simp [get_serializer, hser]
    cases hin : ctx.init_arg_names.contains key with
    | true =>
      rw [hin] at hsig
      simp only [if_true] at hsig
      have hm : key ∈ ctx.init_arg_names := by simpa using hin
      simp [processKwarg, hin, hm, hsig, hgs, hpp, hvn, partitionUpdate]
    | false =>
      rw [hin, if_neg (by simp : ¬(false = true))] at hsig
      have hm : ¬(key ∈ ctx.init_arg_names) := by simpa using hin
      simp [processKwarg, hin, hm, hsig, hgs, hpp, hvn, partitionUpdate]
  · intro nm v
    constructor <;> rfl

/-- A concrete wrapper context for the classification witness: a renamed
constructor resource parameter, an optional constructor string, a
container-typed method parameter and a plain string method parameter. -/
def ctxW : GenCtx :=
  ⟨"Model", "deploy", true,
    ⟨[⟨"model", .positionalOrKeyword, none, .cls (.mb .model)⟩,
      ⟨"project", .positionalOrKeyword, some .vNone, .cls .pyStr⟩], .empty⟩,
    ⟨[⟨"items", .positionalOrKeyword, some .vNone, .container .listO⟩,
      ⟨"machine", .positionalOrKeyword, some .vNone, .cls .pyStr⟩], .strAnn "Endpoint"⟩,
    [("model", "model_name")], ["model", "project"], "", ""⟩

/-- Claim C1 counterexample: the original claim promises that an argument
with a JSON-serializable container annotation, and a pipeline reference of
any non-resource-noun resolved type, each become a `String`/`inputValue`
pipeline input; but a pipeline reference supplied for a container-annotated
parameter is handed to `json.dumps` (the serializer is chosen from the
annotation alone, utils.py lines 517-520), which raises `TypeError`: the
loop step errors and the wrapper produces no manifest, no input and no
static argument. -/
theorem claim_C1_counterexample :
    is_serializable_to_json (resolve_annot (Annot.container .listO)) = true ∧
    isPipelineParam (PyValue.vPipelineParam "p") = true ∧
    processKwarg ctxW initLoopState "items" (PyValue.vPipelineParam "p")
      = .error .typeError ∧
    component_yaml_generator ctxW [("items", PyValue.vPipelineParam "p")]
      = .error .typeError := by
  refine ⟨by decide, rfl, by decide, by decide⟩

/-- Claim C1 witness: one argument of each classification, plus the raising
serializable-annotation pipeline-reference case, at concrete inputs. -/
theorem claim_C1_witness :
    processKwarg ctxW initLoopState "items" (.vJson (.arr [.num 1]))
      = .ok (inputExtend ctxW
          (partitionUpdate ctxW initLoopState "items" (.vJson (.arr [.num 1])))
          "items" "String" "inputValue" (.vStr "[1]")) ∧
    processKwarg ctxW initLoopState "model" (.vPipelineParam "up")
      = .ok (inputExtend ctxW
          (partitionUpdate ctxW initLoopState "model" (.vPipelineParam "up"))
          "model" "Model" "inputPath" (.vPipelineParam "up")) ∧
    processKwarg ctxW initLoopState "machine" (.vPipelineParam "earlier")
      = .ok (inputExtend ctxW
          (partitionUpdate ctxW initLoopState "machine" (.vPipelineParam "earlier"))
          "machine" "String" "inputValue" (.vPipelineParam "earlier")) ∧
    processKwarg ctxW initLoopState "machine" (.vStr "n1")
      = .ok { partitionUpdate ctxW initLoopState "machine" (.vStr "n1") with
          serialized_method :=
            dictInsert
              (partitionUpdate ctxW initLoopState "machine" (.vStr "n1")).serialized_method
              "machine" (.vStr "n1") } ∧
    processKwarg ctxW initLoopState "items" (.vPipelineParam "ref")
      = .error .typeError := by
  refine ⟨?_, ?_, ?_, ?_, ?_⟩
  · exact (claim_C1_kwarg_classification ctxW initLoopState "items"
      (.vJson (.arr [.num 1]))
      ⟨"items", .positionalOrKeyword, some .vNone, .container .listO⟩ rfl).1
      "[1]" rfl (by decide) rfl
  · exact (claim_C1_kwarg_classification ctxW initLoopState "model"
      (.vPipelineParam "up")
      ⟨"model", .positionalOrKeyword, none, .cls (.mb .model)⟩ rfl).2.2.1
      "up" ("model", "Model") rfl rfl rfl (by decide)
  · exact (claim_C1_kwarg_classification ctxW initLoopState "machine"
      (.vPipelineParam "earlier")
      ⟨"machine", .positionalOrKeyword, some .vNone, .cls .pyStr⟩ rfl).2.2.2.1
      "earlier" rfl rfl rfl
  · have h := (claim_C1_kwarg_classification ctxW initLoopState "machine"
      (.vStr "n1")
      ⟨"machine", .positionalOrKeyword, some .vNone, .cls .pyStr⟩ rfl).2.2.2.2.1
      rfl rfl (by decide)
    rw [h]
    decide
  · exact (claim_C1_kwarg_classification ctxW initLoopState "items"
      (.vPipelineParam "ref")
      ⟨"items", .positionalOrKeyword, some .vNone, .container .listO⟩ rfl).2.1
      rfl (by decide)

/-! ### C7 and C10: argument validation and `None` arguments -/

/-- A successful loop step records the argument in its partition and touches
no other kwargs dictionary. -/
theorem processKwarg_kwargs_eq (ctx : GenCtx) (st : LoopState) (key : String)
    (value : PyValue) (st2 : LoopState)
    (h : processKwarg ctx st key value = .ok st2) :
    st2.init_kwargs = (partitionUpdate ctx st key value).init_kwargs ∧
    st2.method_kwargs = (partitionUpdate ctx st key value).method_kwargs := by
  unfold partitionUpdate
  simp only [processKwarg] at h
  split at h
  · injection h with h2
    subst h2
    exact ⟨rfl, rfl⟩
  · split at h
    · simp at h
    · split at h
      · simp at h
      · split at h
        · split at h
          · simp at h
          · injection h with h2
            subst h2
            exact ⟨rfl, rfl⟩
        · split at h
          · injection h with h2
            subst h2
            rename_i hc
            rw [if_pos hc]
            exact ⟨rfl, rfl⟩
          · injection h with h2
            subst h2
            rename_i hc
            rw [if_neg hc]
            exact ⟨rfl, rfl⟩

/-- A successful run of the loop partitions the keyword arguments into the
constructor and method dictionaries by `init_arg_names` membership. -/
theorem runKwargLoop_kwargs (ctx : GenCtx) :
    ∀ (kwargs : List (String × PyValue)) (st st2 : LoopState),
      runKwargLoop ctx st kwargs = .ok st2 →
      (st2.init_kwargs, st2.method_kwargs)
        = kwargs.foldl (fun acc kv =>
            if ctx.init_arg_names.contains kv.1 then (dictInsert acc.1 kv.1 kv.2, acc.2)
            else (acc.1, dictInsert acc.2 kv.1 kv.2))
          (st.init_kwargs, st.method_kwargs) := by
  intro kwargs
  induction kwargs with
  | nil =>
    intro st st2 h
    simp only [runKwargLoop] at h
    injection h with h2
    subst h2
    rfl
  | cons kv rest ih =>
    intro st st2 h
    simp only [runKwargLoop] at h
    cases hp : processKwarg ctx st kv.1 kv.2 with
    | error e => rw [hp] at h; simp at h
    | ok stm =>
      rw [hp] at h
      have h2 : runKwargLoop ctx stm rest = .ok st2 := h
      obtain ⟨hki, hkm⟩ := processKwarg_kwargs_eq ctx st kv.1 kv.2 stm hp
      rw [List.foldl_cons]
      have hstep : (fun (acc : List (String × PyValue) × List (String × PyValue)) kv =>
          if ctx.init_arg_names.contains kv.1 then (dictInsert acc.1 kv.1 kv.2, acc.2)
          else (acc.1, dictInsert acc.2 kv.1 kv.2))
            (st.init_kwargs, st.method_kwargs) kv
          = (stm.init_kwargs, stm.method_kwargs) := by
        show (if ctx.init_arg_names.contains kv.1 = true
            then (dictInsert st.init_kwargs kv.1 kv.2, st.method_kwargs)
            else (st.init_kwargs, dictInsert st.method_kwargs kv.1 kv.2))
          = (stm.init_kwargs, stm.method_kwargs)
        cases hin : ctx.init_arg_names.contains kv.1
        · rw [if_neg (by simp)]
          simp only [partitionUpdate, hin] at hki hkm
          simp at hki hkm
          rw [hki, hkm]
        · rw [if_pos rfl]
          simp only [partitionUpdate, hin] at hki hkm
          simp at hki hkm
          rw [hki, hkm]
      have h3 := ih stm st2 h2
      rw [← hstep] at h3
      exact h3

/-- Looking an inserted dictionary up at any key present before stays
present. -/
theorem dictGet_insert_isSome (d : List (String × α)) (k : String) (v : α)
    (k2 : String) (h : (dictGet d k2).isSome = true) :
    (dictGet (dictInsert d k v) k2).isSome = true := by
  by_cases hk : k2 = k
  · subst hk
    rw [dictGet_insert_self]
    rfl
  · rw [dictGet_insert_other d k v k2 hk]
    exact h

/-- A present key names some entry of the dictionary. -/
theorem dictGet_isSome_mem (d : List (String × α)) (k : String)
    (h : (dictGet d k).isSome = true) : ∃ p ∈ d, p.1 = k := by
  induction d with
  | nil => simp [dictGet] at h
  | cons x d ih =>
    by_cases hx : x.1 = k
    · exact ⟨x, List.mem_cons_self x d, hx⟩
    · rw [dictGet, if_neg hx] at h
      obtain ⟨p, hp, hpk⟩ := ih h
      exact ⟨p, List.mem_cons_of_mem x hp, hpk⟩

/-- An argument whose name is outside `init_arg_names` ends up recorded in
the method partition of the fold. -/
theorem foldl_partition_mem (names : List String) (key : String) (v : PyValue) :
    ∀ (kwargs : List (String × PyValue))
      (acc : List (String × PyValue) × List (String × PyValue)),
      ((key, v) ∈ kwargs ∧ names.contains key = false) ∨
        (dictGet acc.2 key).isSome = true →
      (dictGet (kwargs.foldl (fun acc kv =>
          if names.contains kv.1 then (dictInsert acc.1 kv.1 kv.2, acc.2)
          else (acc.1, dictInsert acc.2 kv.1 kv.2)) acc).2 key).isSome = true := by
  intro kwargs
  induction kwargs with
  | nil =>
    intro acc h
    rcases h with ⟨hmem, _⟩ | h
    · simp at hmem
    · exact h
  | cons kv rest ih =>
    intro acc h
    rw [List.foldl_cons]
    rcases h with ⟨hmem, hnc⟩ | h
    · rcases List.mem_cons.mp hmem with hkv | hrest
      · apply ih
        right
        rw [← hkv, hnc]
        simp only [Bool.false_eq_true, if_false]
        rw [dictGet_insert_self]
        rfl
      · apply ih
        left
        exact ⟨hrest, hnc⟩
    · apply ih
      right
      show (dictGet (if names.contains kv.1 = true
          then (dictInsert acc.1 kv.1 kv.2, acc.2)
          else (acc.1, dictInsert acc.2 kv.1 kv.2)).2 key).isSome = true
      cases hin : names.contains kv.1
      · rw [if_neg (by simp)]
        exact dictGet_insert_isSome acc.2 kv.1 kv.2 key h
      · rw [if_pos rfl]
        exact h

/-- The arguments of `component_yaml_generator`, partitioned as the loop
partitions them: by `init_arg_names` membership, in call order. -/
def partitionKwargs (names : List String) (kwargs : List (String × PyValue)) :
    List (String × PyValue) × List (String × PyValue) :=
  kwargs.foldl (fun acc kv =>
    if names.contains kv.1 then (dictInsert acc.1 kv.1 kv.2, acc.2)
    else (acc.1, dictInsert acc.2 kv.1 kv.2)) ([], [])

/-- Claim C7: a call whose partitioned argument sets fail the signature
binding — an unknown name or a missing required argument in either
partition — raises, and no manifest is produced. -/
theorem claim_C7_bind_validation (ctx : GenCtx) (kwargs : List (String × PyValue))
    (hmis : ¬((ctx.should_serialize_init = true →
        bindOk ctx.init_signature (partitionKwargs ctx.init_arg_names kwargs).1 = true) ∧
      bindOk ctx.method_signature (partitionKwargs ctx.init_arg_names kwargs).2 = true)) :
    ∃ e, component_yaml_generator ctx kwargs = .error e := by
  cases hr : runKwargLoop ctx initLoopState kwargs with
  | error e =>
    exact ⟨e, by simp [component_yaml_generator, hr]⟩
  | ok st =>
    have hpart := runKwargLoop_kwargs ctx kwargs initLoopState st hr
    have h1 : st.init_kwargs = (partitionKwargs ctx.init_arg_names kwargs).1 := by
      have := congrArg Prod.fst hpart
      simpa [partitionKwargs, initLoopState] using this
    have h2 : st.method_kwargs = (partitionKwargs ctx.init_arg_names kwargs).2 := by
      have := congrArg Prod.snd hpart
      simpa [partitionKwargs, initLoopState] using this
    refine ⟨.bindError, ?_⟩
    simp only [component_yaml_generator, hr]
    by_cases hb1 : (ctx.should_serialize_init && !bindOk ctx.init_signature st.init_kwargs) = true
    · rw [if_pos hb1]
    · rw [if_neg hb1]
      have hb2 : bindOk ctx.method_signature st.method_kwargs = false := by
        cases hbm : bindOk ctx.method_signature st.method_kwargs with
        | false => rfl
        | true =>
          exfalso
          apply hmis
          constructor
          · intro hssi
            cases hbi : bindOk ctx.init_signature st.init_kwargs with
            | true => rw [← h1]; exact hbi
            | false =>
              exfalso
              apply hb1
              rw [hssi, hbi]
              rfl
          · rw [← h2]; exact hbm
      rw [if_pos (by rw [hb2]; rfl)]

/-- Claim C7 witness: an unknown argument name makes the wrapper raise
rather than produce a manifest. -/
theorem claim_C7_witness :
    (component_yaml_generator ctx8 [("zzz", PyValue.vStr "1")]).toOption = none := by
  obtain ⟨e, he⟩ := claim_C7_bind_validation ctx8 [("zzz", PyValue.vStr "1")] (by decide)
  rw [he]
  rfl

/-- Claim C10: a `None`-valued keyword argument contributes nothing to the
manifest — no inputs entry, no input binding, no static argument — yet it is
recorded in its partition, so a name unknown to both filtered signatures
still makes the call raise even with a `None` value. -/
theorem claim_C10_none_argument :
    (∀ (ctx : GenCtx) (st : LoopState) (key : String),
      processKwarg ctx st key .vNone = .ok (partitionUpdate ctx st key .vNone) ∧
      (partitionUpdate ctx st key .vNone).inputs = st.inputs ∧
      (partitionUpdate ctx st key .vNone).input_args = st.input_args ∧
      (partitionUpdate ctx st key .vNone).input_kwargs = st.input_kwargs ∧
      (partitionUpdate ctx st key .vNone).serialized_init = st.serialized_init ∧
      (partitionUpdate ctx st key .vNone).serialized_method = st.serialized_method) ∧
    (∀ (ctx : GenCtx) (kwargs : List (String × PyValue)) (key : String),
      (key, PyValue.vNone) ∈ kwargs →
      ctx.init_arg_names.contains key = false →
      ctx.method_signature.parameters.any (fun q => q.name = key) = false →
      ∃ e, component_yaml_generator ctx kwargs = .error e) := by
  constructor
  · intro ctx st key
    refine ⟨rfl, ?_, ?_, ?_, ?_, ?_⟩ <;>
      (unfold partitionUpdate
       cases hin : ctx.init_arg_names.contains key <;> simp)
  · intro ctx kwargs key hmem hnc hsig
    cases hr : runKwargLoop ctx initLoopState kwargs with
    | error e => exact ⟨e, by simp [component_yaml_generator, hr]⟩
    | ok st =>
      have hpart := runKwargLoop_kwargs ctx kwargs initLoopState st hr
      have hm : (dictGet st.method_kwargs key).isSome = true := by
        have hsnd := congrArg Prod.snd hpart
        simp only [initLoopState] at hsnd
        rw [hsnd]
        exact foldl_partition_mem ctx.init_arg_names key .vNone kwargs ([], [])
          (Or.inl ⟨hmem, hnc⟩)
      obtain ⟨p, hp, hpk⟩ := dictGet_isSome_mem st.method_kwargs key hm
      have hbm : bindOk ctx.method_signature st.method_kwargs = false := by
        unfold bindOk
        have hall : st.method_kwargs.all
            (fun p => ctx.method_signature.parameters.any (fun q => q.name = p.1))
            = false := by
          rw [List.all_eq_false]
          refine ⟨p, hp, ?_⟩
          rw [hpk, hsig]
          simp
        rw [hall]
        rfl
      refine ⟨.bindError, ?_⟩
      simp only [component_yaml_generator, hr]
      by_cases hb1 : (ctx.should_serialize_init
          && !bindOk ctx.init_signature st.init_kwargs) = true
      · rw [if_pos hb1]
      · rw [if_neg hb1, if_pos (by rw [hbm]; rfl)]

/-- Claim C10 witness: the `None` skip and the unknown-`None`-name raise at
concrete inputs. -/
theorem claim_C10_witness :
    processKwarg ctxW initLoopState "project" .vNone
      = .ok (partitionUpdate ctxW initLoopState "project" .vNone) ∧
    (component_yaml_generator ctx8 [("nosuch", PyValue.vNone)]).toOption = none := by
  constructor
  · exact ((claim_C10_none_argument).1 ctxW initLoopState "project").1
  · obtain ⟨e, he⟩ := (claim_C10_none_argument).2 ctx8 [("nosuch", PyValue.vNone)]
      "nosuch" (by simp) rfl rfl
    rw [he]
    rfl

end AiPlatformUtils
